import Mathlib

/-!
Shallow embedding of `modpackdown.py` (mod pack install/uninstall manager).

The Python program scans containers (the mods directory, or a pack zip) for
Fabric mod jars, maintains a file-name-keyed version cache, a reference-count
store `packed_mods`, and a current-mods listing, and installs/uninstalls packs
by copying/deleting files and mutating the reference counts.
-/

/-- JSON values as produced by Python's `json.load` (floats omitted; no claim
depends on them). -/
inductive Json where
  | null : Json
  | bool (b : Bool) : Json
  | num (n : Int) : Json
  | str (s : String) : Json
  | arr (xs : List Json) : Json
  | obj (fields : List (String × Json)) : Json

/-- Hashable (scalar) JSON values: the only values usable as Python dict
keys. A list- or dict-valued mod id would raise `TypeError` when used as a
key. (Python additionally identifies `True` with `1` as dict keys; no claim
depends on that, and the model keeps them distinct.) -/
inductive PyKey where
  | null : PyKey
  | bool (b : Bool) : PyKey
  | num (n : Int) : PyKey
  | str (s : String) : PyKey
deriving DecidableEq

/-- The scalar key for a JSON value, or `none` if it is unhashable. -/
def toKey : Json → Option PyKey
  | .null => some .null
  | .bool b => some (.bool b)
  | .num n => some (.num n)
  | .str s => some (.str s)
  | .arr _ => none
  | .obj _ => none

/-- The state of the `fabric.mod.json` member of a candidate jar: absent
(`KeyError` on `getinfo`), present but not valid JSON/UTF-8, or parsed. -/
inductive ManifestState where
  | absent : ManifestState
  | unparsable : ManifestState
  | json (j : Json) : ManifestState

/-- What a candidate file contains: not a valid zip (`BadZipFile`),
or a valid zip with the given manifest state. -/
inductive FileData where
  | notZip : FileData
  | zip (m : ManifestState) : FileData

/-- A directory or archive child: its base name, whether it is a regular
file, and its content. -/
structure Entry where
  name : String
  isFile : Bool
  data : FileData

/-- `dict.get` on a parsed JSON object (first binding wins; parsed Python
dicts have unique keys). -/
def jsonGet (k : String) : List (String × Json) → Option Json
  | [] => none
  | (k', v) :: rest => if k' = k then some v else jsonGet k rest

/-- Python `mod_json.get('schemaVersion') != 1`, negated: `True == 1` in
Python, so a boolean `true` also compares equal to `1`. -/
def pyEqOne : Option Json → Bool
  | some (.num 1) => true
  | some (.bool true) => true
  | _ => false

/-- Python `d.get(k)` followed by an `is None` test: a missing key and an
explicit JSON `null` both read back as `None`. -/
def pyGet (fields : List (String × Json)) (k : String) : Option Json :=
  match jsonGet k fields with
  | none => none
  | some .null => none
  | some v => some v

/-- `read_mod_version`: extracts `(id, version)` from a jar's manifest.
Returns `.ok none` for the soft-skip cases; `.error ()` models the uncaught
`AttributeError` raised by `.get` when the parsed JSON is not an object. -/
def read_mod_version : ManifestState → Except Unit (Option (Json × Json))
  | .absent => .ok none
  | .unparsable => .ok none
  | .json (.obj fields) =>
      if pyEqOne (jsonGet "schemaVersion" fields) then
        match pyGet fields "id", pyGet fields "version" with
        | some i, some v => .ok (some (i, v))
        | _, _ => .ok none
      else .ok none
  | .json _ => .error ()

/-- Python `name.endswith('.jar')`: the last four characters are `.jar`.
(Stated over the character list so that it reduces definitionally.) -/
def endsWithJar (n : String) : Bool := n.data.reverse.take 4 == ['r', 'a', 'j', '.']

/-- The version cache (`version_id_cache`): file name to `(id, version)`. -/
abbrev Cache := String → Option (Json × Json)

/-- A scanned mod list, in result-dict insertion order: `(id, version, origin)`. -/
abbrev ModList := List (PyKey × Json × Entry)

/-- Insertion with Python-dict semantics: an existing key keeps its position
and gets the new value; a new key is appended. -/
def dinsertMod (i : PyKey) (v : Json) (e : Entry) : ModList → ModList
  | [] => [(i, v, e)]
  | (i', v', e') :: rest =>
      if i = i' then (i, v, e) :: rest else (i', v', e') :: dinsertMod i v e rest

/-- Dict lookup on a scanned mod list. -/
def lookupMod (i : PyKey) : ModList → Option (Json × Entry)
  | [] => none
  | (i', v', e') :: rest => if i = i' then some (v', e') else lookupMod i rest

/-- Accumulator of `get_mod_versions`' loop: the result dict so far, the
(shared, mutated-in-place) cache, and the names of files opened so far
(instrumentation for the cache-hit-avoids-reading property). -/
structure ScanAcc where
  mods : ModList
  cache : Cache
  opened : List String

/-- One iteration of the `get_mod_versions` loop over one directory child.
`.error` carries the cache at the moment of the uncaught exception
(`AttributeError` from a non-object manifest, or `TypeError` from an
unhashable mod id used as a dict key). -/
def scanStep (acc : ScanAcc) (e : Entry) : Except Cache ScanAcc :=
  if !endsWithJar e.name then .ok acc
  else if !e.isFile then .ok acc
  else
    match acc.cache e.name with
    | some (i, v) =>
        match toKey i with
        | none => .error acc.cache
        | some k => .ok { acc with mods := dinsertMod k v e acc.mods }
    | none =>
      let opened := acc.opened ++ [e.name]
      match e.data with
      | .notZip => .ok { acc with opened }
      | .zip m =>
        match read_mod_version m with
        | .error _ => .error acc.cache
        | .ok none => .ok { acc with opened }
        | .ok (some (i, v)) =>
            let cache : Cache := fun n => if n = e.name then some (i, v) else acc.cache n
            match toKey i with
            | none => .error cache
            | some k => .ok { mods := dinsertMod k v e acc.mods, cache, opened }

/-- The `get_mod_versions` loop over a list of directory children. -/
def scanAux : List Entry → ScanAcc → Except Cache ScanAcc
  | [], acc => .ok acc
  | e :: rest, acc =>
      match scanStep acc e with
      | .error c => .error c
      | .ok acc' => scanAux rest acc'

/-- `get_mod_versions(mods_dir, cache)`: scan a container's children. -/
def get_mod_versions (entries : List Entry) (cache : Cache) : Except Cache ScanAcc :=
  scanAux entries ⟨[], cache, []⟩

/-- Just the descriptor mapping of a scan, `none` if the scan raised. -/
def scanMods (entries : List Entry) (cache : Cache) : Option ModList :=
  match get_mod_versions entries cache with
  | .ok acc => some acc.mods
  | .error _ => none

/-- File-copy and file-deletion failure injection: `copyFails n = some c`
means writing the target file named `n` raises an exception with cause `c`
(caught by `install_pack`); `unlinkErr n = true` means `unlink` on `n`
raises an exception other than `FileNotFoundError` (not caught by
`uninstall_pack`). -/
structure Env where
  copyFails : String → Option String
  unlinkErr : String → Bool

/-- The benign environment: every file operation succeeds. -/
def envOk : Env := ⟨fun _ => none, fun _ => false⟩

/-- Session state of a `ModPackDown` object: the version cache, the
reference-count store `packed_mods`, the `current_mods` listing, and the
contents of the mods directory on disk. -/
structure St where
  cache : Cache
  packed : PyKey → Option Int
  current : PyKey → Option (Json × Entry)
  fs : List Entry

/-- The events a run emits (the `Event handlers` section of the source). -/
inductive Ev where
  | identified (n : Nat) (isUninstall : Bool)
  | skipInstall (i : PyKey) (v : Json) (fromOtherPack : Bool)
  | failInstall (i : PyKey) (v : Json) (cause : String)
  | okInstall (i : PyKey) (v : Json)
  | skipUninstall (i : PyKey) (v : Json)
  | failUninstall (i : PyKey) (v : Json) (reason : String)
  | okUninstall (i : PyKey) (v : Json)
  | packInstalled (succeeded skipped failed : Nat)
  | packUninstalled (succeeded skipped failed : Nat)

/-- Names of the files present in a directory listing. -/
def fsNames (fs : List Entry) : List String := fs.map (·.name)

/-- Creating/overwriting the file named `e.name` (Python `open(..., 'wb')`):
replace in place if present, else append. -/
def fsWrite (e : Entry) : List Entry → List Entry
  | [] => [e]
  | x :: rest => if x.name = e.name then e :: rest else x :: fsWrite e rest

/-- `Path.unlink`: remove the file with the given name. -/
def fsErase (n : String) : List Entry → List Entry
  | [] => []
  | x :: rest => if x.name = n then rest else x :: fsErase n rest

/-- Whether a file with the given name exists. -/
def fsHas (n : String) (fs : List Entry) : Bool := fs.any (·.name = n)

/-- Aggregate outcome of `install_pack`. -/
structure InstallOut where
  installed : Nat
  skipped : Nat
  failed : Nat
  events : List Ev

/-- Aggregate outcome of `uninstall_pack`. -/
structure UninstallOut where
  uninstalled : Nat
  skipped : Nat
  failed : Nat
  events : List Ev

/-- Accumulator of the `install_pack` per-mod loop. -/
structure ILoop where
  st : St
  installed : Nat
  skipped : Nat
  failed : Nat
  events : List Ev

/-- One iteration of the `install_pack` per-mod loop. -/
def installStep (env : Env) (acc : ILoop) (m : PyKey × Json × Entry) : ILoop :=
  let i := m.1
  let v := m.2.1
  let e := m.2.2
  match acc.st.current i with
  | some _ =>
    match acc.st.packed i with
    | some n =>
        { acc with
          st := { acc.st with packed := fun x => if x = i then some (n + 1) else acc.st.packed x }
          skipped := acc.skipped + 1
          events := acc.events ++ [.skipInstall i v true] }
    | none =>
        { acc with
          st := { acc.st with packed := fun x => if x = i then some 2 else acc.st.packed x }
          skipped := acc.skipped + 1
          events := acc.events ++ [.skipInstall i v false] }
  | none =>
    let packed1 : PyKey → Option Int := fun x => if x = i then some 1 else acc.st.packed x
    match env.copyFails e.name with
    | some cause =>
        { acc with
          st := { acc.st with packed := packed1 }
          failed := acc.failed + 1
          events := acc.events ++ [.failInstall i v cause] }
    | none =>
        { acc with
          st := { acc.st with packed := packed1, fs := fsWrite ⟨e.name, true, e.data⟩ acc.st.fs }
          installed := acc.installed + 1
          events := acc.events ++ [.okInstall i v] }

/-- The `install_pack` per-mod loop. -/
def installLoop (env : Env) : List (PyKey × Json × Entry) → ILoop → ILoop
  | [], acc => acc
  | m :: rest, acc => installLoop env rest (installStep env acc m)

/-- `ModPackDown.install_pack`: scan the pack with the shared cache, then
process each scanned mod. `.error` is an uncaught exception escaping the
call (only the scan can raise here), carrying the state at that moment. -/
def install_pack (env : Env) (st : St) (pack : List Entry) : Except St (St × InstallOut) :=
  match get_mod_versions pack st.cache with
  | .error c => .error { st with cache := c }
  | .ok out =>
    let acc := installLoop env out.mods
      ⟨{ st with cache := out.cache }, 0, 0, 0, [.identified out.mods.length false]⟩
    .ok (acc.st,
      ⟨acc.installed, acc.skipped, acc.failed,
        acc.events ++ [.packInstalled acc.installed acc.skipped acc.failed]⟩)

/-- Accumulator of the `uninstall_pack` per-mod loop. -/
structure ULoop where
  st : St
  uninstalled : Nat
  skipped : Nat
  failed : Nat
  events : List Ev

/-- One iteration of the `uninstall_pack` per-mod loop. `.error` models the
uncaught exception from `unlink` (anything but `FileNotFoundError`): it
fires after the decrement and before the entry removal. -/
def uninstallStep (env : Env) (acc : ULoop) (m : PyKey × Json × Entry) : Except St ULoop :=
  let i := m.1
  let v := m.2.1
  let e := m.2.2
  match acc.st.packed i with
  | none =>
      .ok { acc with
        failed := acc.failed + 1
        events := acc.events ++ [.failUninstall i v "it was not installed"] }
  | some n =>
    if n - 1 > 0 then
      .ok { acc with
        st := { acc.st with packed := fun x => if x = i then some (n - 1) else acc.st.packed x }
        skipped := acc.skipped + 1
        events := acc.events ++ [.skipUninstall i v] }
    else
      if env.unlinkErr e.name then
        .error { acc.st with packed := fun x => if x = i then some (n - 1) else acc.st.packed x }
      else
        let stPop : St :=
          { acc.st with
            current := fun x => if x = i then none else acc.st.current x
            packed := fun x => if x = i then none else acc.st.packed x }
        if fsHas e.name acc.st.fs then
          .ok { acc with
            st := { stPop with fs := fsErase e.name acc.st.fs }
            uninstalled := acc.uninstalled + 1
            events := acc.events ++ [.okUninstall i v] }
        else
          .ok { acc with
            st := stPop
            failed := acc.failed + 1
            events := acc.events ++ [.failUninstall i v "it was missing"] }

/-- The `uninstall_pack` per-mod loop. -/
def uninstallLoop (env : Env) : List (PyKey × Json × Entry) → ULoop → Except St ULoop
  | [], acc => .ok acc
  | m :: rest, acc =>
      match uninstallStep env acc m with
      | .error s => .error s
      | .ok acc' => uninstallLoop env rest acc'

/-- `ModPackDown.uninstall_pack`. -/
def uninstall_pack (env : Env) (st : St) (pack : List Entry) : Except St (St × UninstallOut) :=
  match get_mod_versions pack st.cache with
  | .error c => .error { st with cache := c }
  | .ok out =>
    match uninstallLoop env out.mods
      ⟨{ st with cache := out.cache }, 0, 0, 0, [.identified out.mods.length true]⟩ with
    | .error s => .error s
    | .ok acc =>
      .ok (acc.st,
        ⟨acc.uninstalled, acc.skipped, acc.failed,
          acc.events ++ [.packUninstalled acc.uninstalled acc.skipped acc.failed]⟩)

/-- The `current_mods` function derived from a scanned mod list. -/
def lookupModFn (L : ModList) : PyKey → Option (Json × Entry) := fun i => lookupMod i L

/-- `ModPackDown.init`, given that the two persisted stores are already in
memory (`st.cache`, `st.packed`): scan the mods directory to populate
`current_mods`. -/
def init (st : St) : Except St St :=
  match get_mod_versions st.fs st.cache with
  | .error c => .error { st with cache := c }
  | .ok out => .ok { st with cache := out.cache, current := lookupModFn out.mods }

/-- Exceptions as raised by `ModPackDown.deinit`: a single write failure, or
`Exception(first, second)` chaining both. -/
inductive Exn where
  | e (s : String) : Exn
  | pair (a b : Exn) : Exn

/-- `ModPackDown.deinit`: attempt both writes in order; collect failures.
`cacheRes`/`storeRes` are the outcomes of the two `json.dump` calls
(`some c` = that write raised with cause `c`). Returns the list of writes
attempted (in order) and the exception finally raised, if any. -/
def deinit (cacheRes storeRes : Option String) : List String × Option Exn :=
  let afterCache : Option Exn :=
    match cacheRes with
    | none => none
    | some c => some (.e c)
  let afterStore : Option Exn :=
    match storeRes with
    | none => afterCache
    | some c =>
        match afterCache with
        | none => some (.e c)
        | some a => some (.pair a (.e c))
  (["modpackdown_cache.json", "modpackdown_data.json"], afterStore)

/-- Erase a list of names from a directory listing, in order. -/
def eraseList (ns : List String) (fs : List Entry) : List Entry :=
  ns.foldl (fun a n => fsErase n a) fs

/-- The Install State Store invariant: present entries have count ≥ 1. -/
def StoreInv (p : PyKey → Option Int) : Prop := ∀ i n, p i = some n → 1 ≤ n

/-- The session state after an install call, whether it completed or raised. -/
def resStI (r : Except St (St × InstallOut)) : St :=
  match r with
  | .error s => s
  | .ok p => p.1

/-- The session state after an uninstall call, whether it completed or raised. -/
def resStU (r : Except St (St × UninstallOut)) : St :=
  match r with
  | .error s => s
  | .ok p => p.1

/-- `(installed, skipped, failed)` of a completed install, else `none`. -/
def ioutCounts (r : Except St (St × InstallOut)) : Option (Nat × Nat × Nat) :=
  match r with
  | .ok p => some (p.2.installed, p.2.skipped, p.2.failed)
  | .error _ => none

/-- `(uninstalled, skipped, failed)` of a completed uninstall, else `none`. -/
def uoutCounts (r : Except St (St × UninstallOut)) : Option (Nat × Nat × Nat) :=
  match r with
  | .ok p => some (p.2.uninstalled, p.2.skipped, p.2.failed)
  | .error _ => none

/-- The events of a completed uninstall, else `none`. -/
def uoutEvents (r : Except St (St × UninstallOut)) : Option (List Ev) :=
  match r with
  | .ok p => some p.2.events
  | .error _ => none

/-- The session state after `init`, whether it completed or raised. -/
def initSt (r : Except St St) : St :=
  match r with
  | .ok s => s
  | .error s => s

/-- The everything-empty cache. -/
def emptyCache : Cache := fun _ => none

/-- A fresh session over an empty mods directory with empty stores. -/
def emptySt : St := ⟨emptyCache, fun _ => none, fun _ => none, []⟩

/-- A well-formed `fabric.mod.json` object. -/
def mObj (idv ver : String) : Json :=
  .obj [("schemaVersion", .num 1), ("id", .str idv), ("version", .str ver)]

/-- A jar entry that is a valid mod with the given id and version. -/
def modEntry (n idv ver : String) : Entry := ⟨n, true, .zip (.json (mObj idv ver))⟩

/-- Fixture cache for the C10 witness. -/
def c10c : Cache := fun n => if n = "p.jar" then some (.str "m", .str "9") else none

/-- Fixture entry for the C10 witness: same cached name, non-archive data. -/
def c10e : Entry := ⟨"p.jar", true, .notZip⟩

/-- Environment in which writing the file `m.jar` fails. -/
def c8Env : Env := ⟨fun n => if n = "m.jar" then some "disk full" else none, fun _ => false⟩

/-- A cache all of whose stored descriptors have hashable (scalar) ids, as
every cache produced by a scan does. -/
def cacheSafe (c : Cache) : Prop := ∀ n p, c n = some p → (toKey p.1).isSome

/-- An entry whose extraction cannot raise: either not an archive, or an
archive whose manifest is absent, unparsable, or a JSON object; and if
accepted, its id is hashable. -/
def entrySafe (e : Entry) : Bool :=
  match e.data with
  | .notZip => true
  | .zip m =>
    match read_mod_version m with
    | .error _ => false
    | .ok none => true
    | .ok (some (i, _)) => (toKey i).isSome

/-- Store with a single tracked mod `m` at count 1. -/
def c6St : St :=
  ⟨emptyCache, fun x => if x = PyKey.str "m" then some 1 else none,
    fun _ => none, [modEntry "m.jar" "m" "1"]⟩

/-- Environment in which `unlink` on `m.jar` raises an error other than
`FileNotFoundError` (e.g. a permission error). -/
def c6Env : Env := ⟨fun _ => none, fun n => n == "m.jar"⟩

/-- A one-mod pack used in concrete runs. -/
def c2Pack : List Entry := [modEntry "m.jar" "m" "1"]

/-- Session in which mod `m` is present in the listing and tracked at 1. -/
def c2wSt : St :=
  ⟨emptyCache,
    fun x => if x = PyKey.str "m" then some 1 else none,
    fun x => if x = PyKey.str "m" then some (.str "1", modEntry "m.jar" "m" "1") else none,
    [modEntry "m.jar" "m" "1"]⟩

/-- The mod file actually sitting in the mods directory for id `m`. -/
def c4DirE : Entry := modEntry "mdir.jar" "m" "1"

/-- The pack's own copy of mod `m`, under a different file name. -/
def c4PackE : Entry := modEntry "mpack.jar" "m" "2"

/-- Session where the listing records `m` under `mdir.jar`. -/
def c4St : St :=
  ⟨emptyCache, fun x => if x = PyKey.str "m" then some 1 else none,
    fun x => if x = PyKey.str "m" then some (.str "1", c4DirE) else none, [c4DirE]⟩

/-- The scan result of `[modEntry "a.jar" "a" "1"]` from the empty cache. -/
def c1wOut : ScanAcc :=
  ⟨[(.str "a", .str "1", modEntry "a.jar" "a" "1")],
    fun n => if n = "a.jar" then some (.str "a", .str "1") else none, ["a.jar"]⟩

/-- Mods-directory copy of `foo.jar`: a mod with id `a`. -/
def c1DirE : Entry := modEntry "foo.jar" "a" "1"

/-- Pack copy of `foo.jar`: different content, a mod with id `b`. -/
def c1PackE : Entry := modEntry "foo.jar" "b" "2"

/-- Session over a directory containing the id-`a` copy of `foo.jar`. -/
def c1St : St := ⟨emptyCache, fun _ => none, fun _ => none, [c1DirE]⟩

/-- A non-mod file in the mods directory whose name a pack reuses. -/
def c5NonMod : Entry := ⟨"x.jar", true, .notZip⟩

/-- Session over a directory containing only the non-mod `x.jar`. -/
def c5St : St := ⟨emptyCache, fun _ => none, fun _ => none, [c5NonMod]⟩

/-- A pack with a genuinely new mod whose file name collides with `x.jar`. -/
def c5Pack : List Entry := [modEntry "x.jar" "m" "1"]

/-- Pack A's copy of mod `m`, one session per operation scenario. -/
def c3A : List Entry := [modEntry "ma.jar" "m" "1"]

/-- Pack B's copy of mod `m` under a different file name. -/
def c3B : List Entry := [modEntry "mb.jar" "m" "2"]

/-- Single-session scenario: packs A and B share the file name `m.jar`. -/
def c3A1 : List Entry := [modEntry "m.jar" "m" "1"]

/-- Single-session scenario, pack B. -/
def c3B1 : List Entry := [modEntry "m.jar" "m" "2"]

/-- Session states along the one-command-per-session run of scenario 2. -/
def c3s1 : St := initSt (init emptySt)

def c3s2 : St := resStI (install_pack envOk c3s1 c3A)

def c3s3 : St := initSt (init c3s2)

def c3s4 : St := resStI (install_pack envOk c3s3 c3B)

def c3s5 : St := initSt (init c3s4)

def c3s6 : St := resStU (uninstall_pack envOk c3s5 c3A)

def c3s7 : St := initSt (init c3s6)

theorem scanAux_append (xs ys : List Entry) (acc : ScanAcc) :
    scanAux (xs ++ ys) acc =
      match scanAux xs acc with
      | .error c => .error c
      | .ok a => scanAux ys a := by
  induction xs generalizing acc with
  | nil => simp [scanAux]
  | cons e rest ih =>
      simp only [List.cons_append, scanAux]
      cases scanStep acc e with
      | error c => rfl
      | ok a => exact ih a

theorem scanStep_cache_mono {acc : ScanAcc} {e : Entry} {a : ScanAcc}
    (h : scanStep acc e = .ok a) {n : String} {x : Json × Json}
    (hc : acc.cache n = some x) : a.cache n = some x := by
  unfold scanStep at h
  split at h
  · cases h; exact hc
  split at h
  · cases h; exact hc
  split at h
  · split at h
    · cases h
    · cases h; exact hc
  · rename_i hmiss
    split at h
    · cases h; exact hc
    split at h
    · cases h
    · cases h; exact hc
    · split at h
      · cases h
      · cases h
        show (fun m => if m = e.name then _ else acc.cache m) n = some x
        by_cases hn : n = e.name
        · subst hn; rw [hmiss] at hc; cases hc
        · simp [hn, hc]

theorem scanAux_cache_mono {xs : List Entry} {acc a : ScanAcc}
    (h : scanAux xs acc = .ok a) {n : String} {x : Json × Json}
    (hc : acc.cache n = some x) : a.cache n = some x := by
  induction xs generalizing acc with
  | nil => cases h; exact hc
  | cons e rest ih =>
      unfold scanAux at h
      cases hs : scanStep acc e with
      | error c => rw [hs] at h; cases h
      | ok a1 =>
          rw [hs] at h
          exact ih h (scanStep_cache_mono hs hc)

theorem scanStep_cache_names {acc : ScanAcc} {e : Entry} {a : ScanAcc}
    (h : scanStep acc e = .ok a) {n : String} (hn : n ≠ e.name) :
    a.cache n = acc.cache n := by
  unfold scanStep at h
  split at h
  · cases h; rfl
  split at h
  · cases h; rfl
  split at h
  · split at h
    · cases h
    · cases h; rfl
  · split at h
    · cases h; rfl
    split at h
    · cases h
    · cases h; rfl
    · split at h
      · cases h
      · cases h
        show (fun m => if m = e.name then _ else acc.cache m) n = acc.cache n
        simp [hn]

theorem scanAux_cache_names {xs : List Entry} {acc a : ScanAcc}
    (h : scanAux xs acc = .ok a) {n : String} (hn : n ∉ xs.map (·.name)) :
    a.cache n = acc.cache n := by
  induction xs generalizing acc with
  | nil => cases h; rfl
  | cons e rest ih =>
      unfold scanAux at h
      cases hs : scanStep acc e with
      | error c => rw [hs] at h; cases h
      | ok a1 =>
          rw [hs] at h
          simp only [List.map_cons, List.mem_cons, not_or] at hn
          rw [ih h hn.2, scanStep_cache_names hs hn.1]

/-- Unfolding `scanAux` across a successful step. -/
theorem scanAux_cons_ok (rest : List Entry) {acc a1 : ScanAcc} {e : Entry}
    (hs : scanStep acc e = .ok a1) :
    scanAux (e :: rest) acc = scanAux rest a1 := by
  have h0 : scanAux (e :: rest) acc =
      match scanStep acc e with
      | .error c => .error c
      | .ok acc' => scanAux rest acc' := rfl
  rw [h0, hs]

/-- Rescanning a container (whose child names are distinct) with any cache
that agrees, on the container's names, with the cache produced by a previous
successful scan, yields the same descriptor mapping, and leaves that cache
unchanged. -/
theorem rescan_agree :
    ∀ (xs : List Entry), (xs.map (·.name)).Nodup →
    ∀ (m : ModList) (c : Cache) (o : List String) (m' : ModList) (c' : Cache) (o' : List String),
    scanAux xs ⟨m, c, o⟩ = .ok ⟨m', c', o'⟩ →
    ∀ (c₂ : Cache) (o₂ : List String), (∀ e ∈ xs, c₂ e.name = c' e.name) →
    ∃ o₃, scanAux xs ⟨m, c₂, o₂⟩ = .ok ⟨m', c₂, o₃⟩ := by
  intro xs
  induction xs with
  | nil =>
      intro _ m c o m' c' o' h c₂ o₂ _
      cases h
      exact ⟨o₂, rfl⟩
  | cons e rest ih =>
      intro hnd m c o m' c' o' h c₂ o₂ hag
      simp only [List.map_cons, List.nodup_cons] at hnd
      have hagrest : ∀ e' ∈ rest, c₂ e'.name = c' e'.name :=
        fun e' he' => hag e' (List.mem_cons_of_mem _ he')
      have hage : c₂ e.name = c' e.name := hag e (List.mem_cons_self _ _)
      by_cases hj : endsWithJar e.name
      · by_cases hf : e.isFile
        · cases hc : c e.name with
          | some iv =>
              obtain ⟨i, v⟩ := iv
              cases hk : toKey i with
              | none =>
                  exfalso
                  unfold scanAux scanStep at h
                  simp [hj, hf, hc, hk] at h
              | some k =>
                  have hstep : scanStep ⟨m, c, o⟩ e =
                      .ok ⟨dinsertMod k v e m, c, o⟩ := by
                    unfold scanStep
                    simp [hj, hf, hc, hk]
                  rw [scanAux_cons_ok rest hstep] at h
                  have hc' : c' e.name = some (i, v) := scanAux_cache_mono h hc
                  have hc₂ : c₂ e.name = some (i, v) := by rw [hage, hc']
                  have hstep₂ : scanStep ⟨m, c₂, o₂⟩ e =
                      .ok ⟨dinsertMod k v e m, c₂, o₂⟩ := by
                    unfold scanStep
                    simp [hj, hf, hc₂, hk]
                  obtain ⟨o₃, h₃⟩ := ih hnd.2 _ _ _ _ _ _ h c₂ o₂ hagrest
                  exact ⟨o₃, by rw [scanAux_cons_ok rest hstep₂]; exact h₃⟩
          | none =>
              cases hd : e.data with
              | notZip =>
                  have hstep : scanStep ⟨m, c, o⟩ e = .ok ⟨m, c, o ++ [e.name]⟩ := by
                    unfold scanStep
                    simp [hj, hf, hc, hd]
                  rw [scanAux_cons_ok rest hstep] at h
                  have hc' : c' e.name = none := (scanAux_cache_names h hnd.1).trans hc
                  have hc₂ : c₂ e.name = none := by rw [hage, hc']
                  have hstep₂ : scanStep ⟨m, c₂, o₂⟩ e = .ok ⟨m, c₂, o₂ ++ [e.name]⟩ := by
                    unfold scanStep
                    simp [hj, hf, hc₂, hd]
                  obtain ⟨o₃, h₃⟩ := ih hnd.2 _ _ _ _ _ _ h c₂ (o₂ ++ [e.name]) hagrest
                  exact ⟨o₃, by rw [scanAux_cons_ok rest hstep₂]; exact h₃⟩
              | zip mst =>
                  cases hr : read_mod_version mst with
                  | error u =>
                      exfalso
                      unfold scanAux scanStep at h
                      simp [hj, hf, hc, hd, hr] at h
                  | ok info =>
                      cases info with
                      | none =>
                          have hstep : scanStep ⟨m, c, o⟩ e = .ok ⟨m, c, o ++ [e.name]⟩ := by
                            unfold scanStep
                            simp [hj, hf, hc, hd, hr]
                          rw [scanAux_cons_ok rest hstep] at h
                          have hc' : c' e.name = none := (scanAux_cache_names h hnd.1).trans hc
                          have hc₂ : c₂ e.name = none := by rw [hage, hc']
                          have hstep₂ : scanStep ⟨m, c₂, o₂⟩ e = .ok ⟨m, c₂, o₂ ++ [e.name]⟩ := by
                            unfold scanStep
                            simp [hj, hf, hc₂, hd, hr]
                          obtain ⟨o₃, h₃⟩ := ih hnd.2 _ _ _ _ _ _ h c₂ (o₂ ++ [e.name]) hagrest
                          exact ⟨o₃, by rw [scanAux_cons_ok rest hstep₂]; exact h₃⟩
                      | some iv =>
                          obtain ⟨i, v⟩ := iv
                          cases hk : toKey i with
                          | none =>
                              exfalso
                              unfold scanAux scanStep at h
                              simp [hj, hf, hc, hd, hr, hk] at h
                          | some k =>
                              have hstep : scanStep ⟨m, c, o⟩ e =
                                  .ok ⟨dinsertMod k v e m,
                                    fun n => if n = e.name then some (i, v) else c n,
                                    o ++ [e.name]⟩ := by
                                unfold scanStep
                                simp [hj, hf, hc, hd, hr, hk]
                              rw [scanAux_cons_ok rest hstep] at h
                              have hc' : c' e.name = some (i, v) := by
                                refine scanAux_cache_mono h ?_
                                simp
                              have hc₂ : c₂ e.name = some (i, v) := by rw [hage, hc']
                              have hstep₂ : scanStep ⟨m, c₂, o₂⟩ e =
                                  .ok ⟨dinsertMod k v e m, c₂, o₂⟩ := by
                                unfold scanStep
                                simp [hj, hf, hc₂, hk]
                              obtain ⟨o₃, h₃⟩ := ih hnd.2 _ _ _ _ _ _ h c₂ o₂ hagrest
                              exact ⟨o₃, by rw [scanAux_cons_ok rest hstep₂]; exact h₃⟩
        · have hstep : scanStep ⟨m, c, o⟩ e = .ok ⟨m, c, o⟩ := by
            unfold scanStep
            simp [hj, hf]
          have hstep₂ : scanStep ⟨m, c₂, o₂⟩ e = .ok ⟨m, c₂, o₂⟩ := by
            unfold scanStep
            simp [hj, hf]
          rw [scanAux_cons_ok rest hstep] at h
          obtain ⟨o₃, h₃⟩ := ih hnd.2 _ _ _ _ _ _ h c₂ o₂ hagrest
          exact ⟨o₃, by rw [scanAux_cons_ok rest hstep₂]; exact h₃⟩
      · have hstep : scanStep ⟨m, c, o⟩ e = .ok ⟨m, c, o⟩ := by
          unfold scanStep
          simp [hj]
        have hstep₂ : scanStep ⟨m, c₂, o₂⟩ e = .ok ⟨m, c₂, o₂⟩ := by
          unfold scanStep
          simp [hj]
        rw [scanAux_cons_ok rest hstep] at h
        obtain ⟨o₃, h₃⟩ := ih hnd.2 _ _ _ _ _ _ h c₂ o₂ hagrest
        exact ⟨o₃, by rw [scanAux_cons_ok rest hstep₂]; exact h₃⟩

theorem fsHas_append (n : String) (xs ys : List Entry) :
    fsHas n (xs ++ ys) = (fsHas n xs || fsHas n ys) := by
  simp [fsHas, List.any_append]

theorem fsWrite_fresh {e : Entry} : ∀ {fs : List Entry}, fsHas e.name fs = false →
    fsWrite e fs = fs ++ [e] := by
  intro fs
  induction fs with
  | nil => intro _; rfl
  | cons x rest ih =>
      intro h
      simp only [fsHas, List.any_cons, Bool.or_eq_false_iff] at h
      have hx : ¬ x.name = e.name := by
        intro hh
        simp [hh] at h
      simp only [fsWrite, if_neg hx, List.cons_append]
      rw [ih]
      simp only [fsHas]
      exact h.2

theorem fsErase_not_has : ∀ {fs : List Entry} {n : String}, fsHas n fs = false →
    fsErase n fs = fs := by
  intro fs
  induction fs with
  | nil => intro n _; rfl
  | cons x rest ih =>
      intro n h
      simp only [fsHas, List.any_cons, Bool.or_eq_false_iff] at h
      have hx : ¬ x.name = n := by
        intro hh
        simp [hh] at h
      simp only [fsErase, if_neg hx]
      rw [ih]
      simp only [fsHas]
      exact h.2

theorem fsErase_append_head {fs : List Entry} {e : Entry} (rest : List Entry)
    (h : fsHas e.name fs = false) :
    fsErase e.name (fs ++ e :: rest) = fs ++ rest := by
  induction fs with
  | nil => simp [fsErase]
  | cons x xs ih =>
      simp only [fsHas, List.any_cons, Bool.or_eq_false_iff] at h
      have hx : ¬ x.name = e.name := by
        intro hh
        simp [hh] at h
      simp only [List.cons_append, fsErase, if_neg hx]
      show x :: fsErase e.name (xs ++ e :: rest) = x :: (xs ++ rest)
      rw [ih]
      simp only [fsHas]
      exact h.2

theorem fsHas_erase_ne {n n' : String} (h : n ≠ n') : ∀ (fs : List Entry),
    fsHas n (fsErase n' fs) = fsHas n fs := by
  intro fs
  induction fs with
  | nil => rfl
  | cons x rest ih =>
      by_cases hx : x.name = n'
      · simp only [fsErase, if_pos hx, fsHas, List.any_cons]
        have : (x.name = n) = False := by
          simp [hx, Ne.symm h]
        simp [fsHas] at ih ⊢
        intro hn
        rw [hx] at hn
        exact absurd hn.symm h
      · simp only [fsErase, if_neg hx, fsHas, List.any_cons]
        simp [fsHas] at ih
        rw [ih]

theorem eraseList_append_all : ∀ (es fs : List Entry),
    (∀ e ∈ es, fsHas e.name fs = false) → (es.map (·.name)).Nodup →
    eraseList (es.map (·.name)) (fs ++ es) = fs := by
  intro es
  induction es with
  | nil => intro fs _ _; simp [eraseList]
  | cons e rest ih =>
      intro fs hfresh hnd
      simp only [List.map_cons, List.nodup_cons] at hnd
      have h1 : fsErase e.name (fs ++ e :: rest) = fs ++ rest :=
        fsErase_append_head rest (hfresh e (List.mem_cons_self _ _))
      show eraseList (e.name :: rest.map (·.name)) (fs ++ e :: rest) = fs
      have h2 : eraseList (e.name :: rest.map (·.name)) (fs ++ e :: rest) =
          eraseList (rest.map (·.name)) (fsErase e.name (fs ++ e :: rest)) := rfl
      rw [h2, h1]
      exact ih fs (fun x hx => hfresh x (List.mem_cons_of_mem _ hx)) hnd.2

theorem installStep_skip_other {env : Env} {acc : ILoop} {i : PyKey} {v : Json} {e : Entry}
    {cv : Json × Entry} {n : Int}
    (hc : acc.st.current i = some cv) (hp : acc.st.packed i = some n) :
    installStep env acc (i, v, e) =
      { acc with
        st := { acc.st with packed := fun x => if x = i then some (n + 1) else acc.st.packed x }
        skipped := acc.skipped + 1
        events := acc.events ++ [.skipInstall i v true] } := by
  unfold installStep
  simp [hc, hp]

theorem installStep_skip_user {env : Env} {acc : ILoop} {i : PyKey} {v : Json} {e : Entry}
    {cv : Json × Entry}
    (hc : acc.st.current i = some cv) (hp : acc.st.packed i = none) :
    installStep env acc (i, v, e) =
      { acc with
        st := { acc.st with packed := fun x => if x = i then some 2 else acc.st.packed x }
        skipped := acc.skipped + 1
        events := acc.events ++ [.skipInstall i v false] } := by
  unfold installStep
  simp [hc, hp]

theorem installStep_new_fail {env : Env} {acc : ILoop} {i : PyKey} {v : Json} {e : Entry}
    {cause : String}
    (hc : acc.st.current i = none) (hcf : env.copyFails e.name = some cause) :
    installStep env acc (i, v, e) =
      { acc with
        st := { acc.st with packed := fun x => if x = i then some 1 else acc.st.packed x }
        failed := acc.failed + 1
        events := acc.events ++ [.failInstall i v cause] } := by
  unfold installStep
  simp [hc, hcf]

theorem installStep_new_ok {env : Env} {acc : ILoop} {i : PyKey} {v : Json} {e : Entry}
    (hc : acc.st.current i = none) (hcf : env.copyFails e.name = none) :
    installStep env acc (i, v, e) =
      { acc with
        st := { acc.st with
          packed := fun x => if x = i then some 1 else acc.st.packed x
          fs := fsWrite ⟨e.name, true, e.data⟩ acc.st.fs }
        installed := acc.installed + 1
        events := acc.events ++ [.okInstall i v] } := by
  unfold installStep
  simp [hc, hcf]

/-- A pack all of whose scanned mods are already in the current listing and
tracked in the store is processed as all-skips: each count is bumped by
exactly one, nothing is copied, and nothing else changes. -/
theorem installLoop_all_skip (env : Env) :
    ∀ (L : List (PyKey × Json × Entry)) (acc : ILoop),
    (L.map (·.1)).Nodup →
    (∀ m ∈ L, (acc.st.current m.1).isSome ∧ (acc.st.packed m.1).isSome) →
    (installLoop env L acc).st.current = acc.st.current ∧
    (installLoop env L acc).st.cache = acc.st.cache ∧
    (installLoop env L acc).st.fs = acc.st.fs ∧
    (installLoop env L acc).installed = acc.installed ∧
    (installLoop env L acc).failed = acc.failed ∧
    (installLoop env L acc).skipped = acc.skipped + L.length ∧
    (∀ x, x ∉ L.map (·.1) → (installLoop env L acc).st.packed x = acc.st.packed x) ∧
    (∀ m ∈ L, ∀ n : Int, acc.st.packed m.1 = some n →
      (installLoop env L acc).st.packed m.1 = some (n + 1)) := by
  intro L
  induction L with
  | nil =>
      intro acc _ _
      refine ⟨rfl, rfl, rfl, rfl, rfl, ?_, fun x _ => rfl, fun m hm => absurd hm (by simp)⟩
      simp [installLoop]
  | cons m rest ih =>
      intro acc hnd hyp
      obtain ⟨i, v, e⟩ := m
      simp only [List.map_cons, List.nodup_cons] at hnd
      obtain ⟨hc, hp⟩ := hyp (i, v, e) (List.mem_cons_self _ _)
      obtain ⟨cv, hcv⟩ := Option.isSome_iff_exists.mp hc
      obtain ⟨n, hn⟩ := Option.isSome_iff_exists.mp hp
      have hstep := @installStep_skip_other env acc i v e cv n hcv hn
      have hul : installLoop env ((i, v, e) :: rest) acc =
          installLoop env rest (installStep env acc (i, v, e)) := rfl
      rw [hul, hstep]
      set acc' : ILoop :=
        { acc with
          st := { acc.st with packed := fun x => if x = i then some (n + 1) else acc.st.packed x }
          skipped := acc.skipped + 1
          events := acc.events ++ [.skipInstall i v true] } with hacc'
      have hyp' : ∀ m ∈ rest, (acc'.st.current m.1).isSome ∧ (acc'.st.packed m.1).isSome := by
        intro m hm
        obtain ⟨h1, h2⟩ := hyp m (List.mem_cons_of_mem _ hm)
        refine ⟨h1, ?_⟩
        show (if m.1 = i then some (n + 1) else acc.st.packed m.1).isSome
        split
        · rfl
        · exact h2
      obtain ⟨q1, q2, q3, q4, q5, q6, q7, q8⟩ := ih acc' hnd.2 hyp'
      refine ⟨q1, q2, q3, q4, q5, ?_, ?_, ?_⟩
      · rw [q6]
        show acc.skipped + 1 + rest.length = acc.skipped + (rest.length + 1)
        omega
      · intro x hx
        simp only [List.map_cons, List.mem_cons, not_or] at hx
        rw [q7 x hx.2]
        show (if x = i then some (n + 1) else acc.st.packed x) = acc.st.packed x
        rw [if_neg hx.1]
      · intro m hm k hk
        rcases List.mem_cons.mp hm with hm1 | hm2
        · subst hm1
          have hik : n = k := by
            rw [hn] at hk
            exact Option.some_inj.mp hk
          rw [q7 i hnd.1]
          show (if i = i then some (n + 1) else acc.st.packed i) = some (k + 1)
          rw [if_pos rfl, hik]
        · have hne : m.1 ≠ i := by
            intro hh
            exact hnd.1 (hh ▸ (List.mem_map_of_mem (·.1) hm2))
          refine q8 m hm2 k ?_
          show (if m.1 = i then some (n + 1) else acc.st.packed m.1) = some k
          rw [if_neg hne]
          exact hk

/-- A pack all of whose scanned mods are genuinely new (absent from the
current listing), with fresh distinct target file names and all copies
succeeding, is installed wholesale: each mod's count is set to 1 and its
file appended to the mods directory. -/
theorem installLoop_all_new (env : Env) :
    ∀ (L : List (PyKey × Json × Entry)) (acc : ILoop),
    ((L.map (·.2.2.name)).Nodup) →
    (∀ m ∈ L, acc.st.current m.1 = none ∧ env.copyFails m.2.2.name = none ∧
      fsHas m.2.2.name acc.st.fs = false) →
    (installLoop env L acc).st.current = acc.st.current ∧
    (installLoop env L acc).st.cache = acc.st.cache ∧
    (installLoop env L acc).st.fs =
      acc.st.fs ++ L.map (fun m => (⟨m.2.2.name, true, m.2.2.data⟩ : Entry)) ∧
    (installLoop env L acc).installed = acc.installed + L.length ∧
    (installLoop env L acc).failed = acc.failed ∧
    (installLoop env L acc).skipped = acc.skipped ∧
    (∀ x, x ∉ L.map (·.1) → (installLoop env L acc).st.packed x = acc.st.packed x) ∧
    (∀ m ∈ L, (installLoop env L acc).st.packed m.1 = some 1) := by
  intro L
  induction L with
  | nil =>
      intro acc _ _
      refine ⟨rfl, rfl, by simp [installLoop], by simp [installLoop], rfl, rfl,
        fun x _ => rfl, fun m hm => absurd hm (by simp)⟩
  | cons m rest ih =>
      intro acc hnd hyp
      obtain ⟨i, v, e⟩ := m
      simp only [List.map_cons, List.nodup_cons] at hnd
      obtain ⟨hc, hcf, hfr⟩ := hyp (i, v, e) (List.mem_cons_self _ _)
      have hstep := @installStep_new_ok env acc i v e hc hcf
      have hul : installLoop env ((i, v, e) :: rest) acc =
          installLoop env rest (installStep env acc (i, v, e)) := rfl
      rw [hul, hstep]
      set acc' : ILoop :=
        { acc with
          st := { acc.st with
            packed := fun x => if x = i then some 1 else acc.st.packed x
            fs := fsWrite ⟨e.name, true, e.data⟩ acc.st.fs }
          installed := acc.installed + 1
          events := acc.events ++ [.okInstall i v] } with hacc'
      have hwr : fsWrite (⟨e.name, true, e.data⟩ : Entry) acc.st.fs =
          acc.st.fs ++ [⟨e.name, true, e.data⟩] := fsWrite_fresh hfr
      have hyp' : ∀ m ∈ rest, acc'.st.current m.1 = none ∧ env.copyFails m.2.2.name = none ∧
          fsHas m.2.2.name acc'.st.fs = false := by
        intro m hm
        obtain ⟨h1, h2, h3⟩ := hyp m (List.mem_cons_of_mem _ hm)
        refine ⟨h1, h2, ?_⟩
        show fsHas m.2.2.name (fsWrite ⟨e.name, true, e.data⟩ acc.st.fs) = false
        rw [hwr, fsHas_append, h3]
        have hne : m.2.2.name ≠ e.name := by
          intro hh
          exact hnd.1 (hh ▸ (List.mem_map_of_mem (·.2.2.name) hm))
        rw [Bool.false_or]
        show (decide (e.name = m.2.2.name) || false) = false
        rw [Bool.or_false, decide_eq_false_iff_not]
        exact fun hh => hne hh.symm
      obtain ⟨q1, q2, q3, q4, q5, q6, q7, q8⟩ := ih acc' hnd.2 hyp'
      refine ⟨q1, q2, ?_, ?_, q5, q6, ?_, ?_⟩
      · rw [q3]
        show fsWrite ⟨e.name, true, e.data⟩ acc.st.fs ++ _ = _
        rw [hwr]
        simp
      · rw [q4]
        show acc.installed + 1 + rest.length = acc.installed + (rest.length + 1)
        omega
      · intro x hx
        simp only [List.map_cons, List.mem_cons, not_or] at hx
        rw [q7 x hx.2]
        show (if x = i then some 1 else acc.st.packed x) = acc.st.packed x
        rw [if_neg hx.1]
      · intro m hm
        rcases List.mem_cons.mp hm with hm1 | hm2
        · subst hm1
          by_cases hii : i ∈ rest.map (·.1)
          · obtain ⟨m', hm', hm'i⟩ := List.mem_map.mp hii
            have := q8 m' hm'
            rw [hm'i] at this
            exact this
          · rw [q7 i hii]
            show (if i = i then some 1 else acc.st.packed i) = some 1
            rw [if_pos rfl]
        · exact q8 m hm2

theorem installLoop_append (env : Env) (L1 L2 : List (PyKey × Json × Entry)) :
    ∀ acc, installLoop env (L1 ++ L2) acc = installLoop env L2 (installLoop env L1 acc) := by
  induction L1 with
  | nil => intro acc; rfl
  | cons m rest ih => intro acc; exact ih (installStep env acc m)

/-- `installStep` never touches `current`, `cache`, or the event prefix. -/
theorem installStep_frame (env : Env) (acc : ILoop) (m : PyKey × Json × Entry) :
    (installStep env acc m).st.current = acc.st.current ∧
    (installStep env acc m).st.cache = acc.st.cache ∧
    (∃ tail, (installStep env acc m).events = acc.events ++ tail) := by
  obtain ⟨i, v, e⟩ := m
  cases hc : acc.st.current i with
  | some cv =>
      cases hp : acc.st.packed i with
      | some n => rw [installStep_skip_other hc hp]; exact ⟨rfl, rfl, _, rfl⟩
      | none => rw [installStep_skip_user hc hp]; exact ⟨rfl, rfl, _, rfl⟩
  | none =>
      cases hcf : env.copyFails e.name with
      | some cause => rw [installStep_new_fail hc hcf]; exact ⟨rfl, rfl, _, rfl⟩
      | none => rw [installStep_new_ok hc hcf]; exact ⟨rfl, rfl, _, rfl⟩

theorem installLoop_frame (env : Env) :
    ∀ (L : List (PyKey × Json × Entry)) (acc : ILoop),
    (installLoop env L acc).st.current = acc.st.current ∧
    (installLoop env L acc).st.cache = acc.st.cache ∧
    (∃ tail, (installLoop env L acc).events = acc.events ++ tail) := by
  intro L
  induction L with
  | nil => intro acc; exact ⟨rfl, rfl, [], by simp [installLoop]⟩
  | cons m rest ih =>
      intro acc
      obtain ⟨s1, s2, t, ht⟩ := installStep_frame env acc m
      obtain ⟨r1, r2, u, hu⟩ := ih (installStep env acc m)
      refine ⟨r1.trans s1, r2.trans s2, t ++ u, ?_⟩
      show (installLoop env rest (installStep env acc m)).events = _
      rw [hu, ht, List.append_assoc]

/-- Mods whose id is not in the processed list keep their store entry. -/
theorem installLoop_packed_out (env : Env) :
    ∀ (L : List (PyKey × Json × Entry)) (acc : ILoop) (x : PyKey),
    x ∉ L.map (·.1) → (installLoop env L acc).st.packed x = acc.st.packed x := by
  intro L
  induction L with
  | nil => intro acc x _; rfl
  | cons m rest ih =>
      intro acc x hx
      obtain ⟨i, v, e⟩ := m
      simp only [List.map_cons, List.mem_cons, not_or] at hx
      have h1 : (installLoop env ((i, v, e) :: rest) acc) =
          installLoop env rest (installStep env acc (i, v, e)) := rfl
      rw [h1, ih _ x hx.2]
      cases hc : acc.st.current i with
      | some cv =>
          cases hp : acc.st.packed i with
          | some n =>
              rw [installStep_skip_other hc hp]
              show (if x = i then some (n + 1) else acc.st.packed x) = _
              rw [if_neg hx.1]
          | none =>
              rw [installStep_skip_user hc hp]
              show (if x = i then some 2 else acc.st.packed x) = _
              rw [if_neg hx.1]
      | none =>
          cases hcf : env.copyFails e.name with
          | some cause =>
              rw [installStep_new_fail hc hcf]
              show (if x = i then some 1 else acc.st.packed x) = _
              rw [if_neg hx.1]
          | none =>
              rw [installStep_new_ok hc hcf]
              show (if x = i then some 1 else acc.st.packed x) = _
              rw [if_neg hx.1]

theorem uninstallStep_notinst {env : Env} {acc : ULoop} {i : PyKey} {v : Json} {e : Entry}
    (hp : acc.st.packed i = none) :
    uninstallStep env acc (i, v, e) =
      .ok { acc with
        failed := acc.failed + 1
        events := acc.events ++ [.failUninstall i v "it was not installed"] } := by
  unfold uninstallStep
  simp [hp]

theorem uninstallStep_skip {env : Env} {acc : ULoop} {i : PyKey} {v : Json} {e : Entry}
    {n : Int} (hp : acc.st.packed i = some n) (hgt : n - 1 > 0) :
    uninstallStep env acc (i, v, e) =
      .ok { acc with
        st := { acc.st with packed := fun x => if x = i then some (n - 1) else acc.st.packed x }
        skipped := acc.skipped + 1
        events := acc.events ++ [.skipUninstall i v] } := by
  unfold uninstallStep
  simp [hp, hgt]

theorem uninstallStep_err {env : Env} {acc : ULoop} {i : PyKey} {v : Json} {e : Entry}
    {n : Int} (hp : acc.st.packed i = some n) (hgt : ¬ n - 1 > 0)
    (he : env.unlinkErr e.name = true) :
    uninstallStep env acc (i, v, e) =
      .error { acc.st with packed := fun x => if x = i then some (n - 1) else acc.st.packed x } := by
  unfold uninstallStep
  simp [hp, hgt, he]

theorem uninstallStep_del {env : Env} {acc : ULoop} {i : PyKey} {v : Json} {e : Entry}
    {n : Int} (hp : acc.st.packed i = some n) (hgt : ¬ n - 1 > 0)
    (he : env.unlinkErr e.name = false) (hf : fsHas e.name acc.st.fs = true) :
    uninstallStep env acc (i, v, e) =
      .ok { acc with
        st := { acc.st with
          current := fun x => if x = i then none else acc.st.current x
          packed := fun x => if x = i then none else acc.st.packed x
          fs := fsErase e.name acc.st.fs }
        uninstalled := acc.uninstalled + 1
        events := acc.events ++ [.okUninstall i v] } := by
  unfold uninstallStep
  simp [hp, hgt, he, hf]

theorem uninstallStep_miss {env : Env} {acc : ULoop} {i : PyKey} {v : Json} {e : Entry}
    {n : Int} (hp : acc.st.packed i = some n) (hgt : ¬ n - 1 > 0)
    (he : env.unlinkErr e.name = false) (hf : fsHas e.name acc.st.fs = false) :
    uninstallStep env acc (i, v, e) =
      .ok { acc with
        st := { acc.st with
          current := fun x => if x = i then none else acc.st.current x
          packed := fun x => if x = i then none else acc.st.packed x }
        failed := acc.failed + 1
        events := acc.events ++ [.failUninstall i v "it was missing"] } := by
  unfold uninstallStep
  simp [hp, hgt, he, hf]

theorem uninstallLoop_cons_ok (rest : List (PyKey × Json × Entry)) {env : Env}
    {acc acc' : ULoop} {m : PyKey × Json × Entry}
    (hs : uninstallStep env acc m = .ok acc') :
    uninstallLoop env (m :: rest) acc = uninstallLoop env rest acc' := by
  have h0 : uninstallLoop env (m :: rest) acc =
      match uninstallStep env acc m with
      | .error s => .error s
      | .ok a => uninstallLoop env rest a := rfl
  rw [h0, hs]

/-- Uninstalling a pack each of whose scanned mods has store count exactly 1,
whose file names are distinct and present, with all deletions succeeding:
every entry is removed from the store, the listing, and the directory. -/
theorem uninstallLoop_all_del (env : Env) :
    ∀ (L : List (PyKey × Json × Entry)) (acc : ULoop),
    (L.map (·.1)).Nodup →
    (L.map (·.2.2.name)).Nodup →
    (∀ m ∈ L, acc.st.packed m.1 = some 1 ∧ env.unlinkErr m.2.2.name = false ∧
      fsHas m.2.2.name acc.st.fs = true) →
    ∃ r, uninstallLoop env L acc = .ok r ∧
      r.st.cache = acc.st.cache ∧
      r.st.fs = eraseList (L.map (·.2.2.name)) acc.st.fs ∧
      r.uninstalled = acc.uninstalled + L.length ∧
      r.skipped = acc.skipped ∧
      r.failed = acc.failed ∧
      (∀ x, x ∉ L.map (·.1) →
        r.st.packed x = acc.st.packed x ∧ r.st.current x = acc.st.current x) ∧
      (∀ m ∈ L, r.st.packed m.1 = none ∧ r.st.current m.1 = none) := by
  intro L
  induction L with
  | nil =>
      intro acc _ _ _
      exact ⟨acc, rfl, rfl, rfl, rfl, rfl, rfl, fun x _ => ⟨rfl, rfl⟩,
        fun m hm => absurd hm (by simp)⟩
  | cons m rest ih =>
      intro acc hndi hndn hyp
      obtain ⟨i, v, e⟩ := m
      simp only [List.map_cons, List.nodup_cons] at hndi hndn
      obtain ⟨hp, he, hf⟩ := hyp (i, v, e) (List.mem_cons_self _ _)
      have hgt : ¬ (1 : Int) - 1 > 0 := by norm_num
      have hstep := @uninstallStep_del env acc i v e 1 hp hgt he hf
      set acc' : ULoop :=
        { acc with
          st := { acc.st with
            current := fun x => if x = i then none else acc.st.current x
            packed := fun x => if x = i then none else acc.st.packed x
            fs := fsErase e.name acc.st.fs }
          uninstalled := acc.uninstalled + 1
          events := acc.events ++ [.okUninstall i v] } with hacc'
      have hyp' : ∀ m ∈ rest, acc'.st.packed m.1 = some 1 ∧
          env.unlinkErr m.2.2.name = false ∧ fsHas m.2.2.name acc'.st.fs = true := by
        intro m hm
        obtain ⟨h1, h2, h3⟩ := hyp m (List.mem_cons_of_mem _ hm)
        have hnei : m.1 ≠ i := by
          intro hh
          exact hndi.1 (hh ▸ (List.mem_map_of_mem (·.1) hm))
        have hnen : m.2.2.name ≠ e.name := by
          intro hh
          exact hndn.1 (hh ▸ (List.mem_map_of_mem (·.2.2.name) hm))
        refine ⟨?_, h2, ?_⟩
        · show (if m.1 = i then none else acc.st.packed m.1) = some 1
          rw [if_neg hnei]
          exact h1
        · show fsHas m.2.2.name (fsErase e.name acc.st.fs) = true
          rw [fsHas_erase_ne hnen]
          exact h3
      obtain ⟨r, hr, q2, q3, q4, q5, q6, q7, q8⟩ := ih acc' hndi.2 hndn.2 hyp'
      refine ⟨r, ?_, q2, ?_, ?_, q5, q6, ?_, ?_⟩
      · rw [uninstallLoop_cons_ok rest hstep]
        exact hr
      · rw [q3]
        rfl
      · rw [q4]
        show acc.uninstalled + 1 + rest.length = acc.uninstalled + (rest.length + 1)
        omega
      · intro x hx
        simp only [List.map_cons, List.mem_cons, not_or] at hx
        obtain ⟨w1, w2⟩ := q7 x hx.2
        constructor
        · rw [w1]
          show (if x = i then none else acc.st.packed x) = acc.st.packed x
          rw [if_neg hx.1]
        · rw [w2]
          show (if x = i then none else acc.st.current x) = acc.st.current x
          rw [if_neg hx.1]
      · intro m hm
        rcases List.mem_cons.mp hm with hm1 | hm2
        · subst hm1
          by_cases hii : i ∈ rest.map (·.1)
          · exact absurd hii hndi.1
          · obtain ⟨w1, w2⟩ := q7 i hii
            constructor
            · rw [w1]
              show (if i = i then none else acc.st.packed i) = none
              rw [if_pos rfl]
            · rw [w2]
              show (if i = i then none else acc.st.current i) = none
              rw [if_pos rfl]
        · exact q8 m hm2

theorem installStep_inv (env : Env) (acc : ILoop) (m : PyKey × Json × Entry)
    (h : StoreInv acc.st.packed) : StoreInv (installStep env acc m).st.packed := by
  obtain ⟨i, v, e⟩ := m
  cases hc : acc.st.current i with
  | some cv =>
      cases hp : acc.st.packed i with
      | some n =>
          rw [installStep_skip_other hc hp]
          intro x k hk
          have h2 : (if x = i then some (n + 1) else acc.st.packed x) = some k := hk
          by_cases hx : x = i
          · rw [if_pos hx] at h2
            injection h2 with h3
            have hn1 := h i n hp
            omega
          · rw [if_neg hx] at h2
            exact h x k h2
      | none =>
          rw [installStep_skip_user hc hp]
          intro x k hk
          have h2 : (if x = i then some 2 else acc.st.packed x) = some k := hk
          by_cases hx : x = i
          · rw [if_pos hx] at h2
            injection h2 with h3
            omega
          · rw [if_neg hx] at h2
            exact h x k h2
  | none =>
      have hone : StoreInv (fun x => if x = i then some 1 else acc.st.packed x) := by
        intro x k hk
        simp only at hk
        by_cases hx : x = i
        · rw [if_pos hx] at hk
          injection hk with h3
          omega
        · rw [if_neg hx] at hk
          exact h x k hk
      cases hcf : env.copyFails e.name with
      | some cause =>
          rw [installStep_new_fail hc hcf]
          exact hone
      | none =>
          rw [installStep_new_ok hc hcf]
          exact hone

theorem installLoop_inv (env : Env) :
    ∀ (L : List (PyKey × Json × Entry)) (acc : ILoop),
    StoreInv acc.st.packed → StoreInv (installLoop env L acc).st.packed := by
  intro L
  induction L with
  | nil => intro acc h; exact h
  | cons m rest ih =>
      intro acc h
      exact ih (installStep env acc m) (installStep_inv env acc m h)

theorem uninstallLoop_inv (env : Env) :
    ∀ (L : List (PyKey × Json × Entry)) (acc r : ULoop),
    StoreInv acc.st.packed → uninstallLoop env L acc = .ok r →
    StoreInv r.st.packed := by
  intro L
  induction L with
  | nil =>
      intro acc r h hr
      cases hr
      exact h
  | cons m rest ih =>
      intro acc r h hr
      obtain ⟨i, v, e⟩ := m
      cases hp : acc.st.packed i with
      | none =>
          rw [uninstallLoop_cons_ok rest (uninstallStep_notinst hp)] at hr
          refine ih _ _ ?_ hr
          exact h
      | some n =>
          by_cases hgt : n - 1 > 0
          · rw [uninstallLoop_cons_ok rest (uninstallStep_skip hp hgt)] at hr
            refine ih _ _ ?_ hr
            intro x k hk
            have h2 : (if x = i then some (n - 1) else acc.st.packed x) = some k := hk
            by_cases hx : x = i
            · rw [if_pos hx] at h2
              injection h2 with h3
              omega
            · rw [if_neg hx] at h2
              exact h x k h2
          · have hpop : StoreInv (fun x => if x = i then none else acc.st.packed x) := by
              intro x k hk
              have hk2 : (if x = i then none else acc.st.packed x) = some k := hk
              by_cases hx : x = i
              · rw [if_pos hx] at hk2
                cases hk2
              · rw [if_neg hx] at hk2
                exact h x k hk2
            cases he : env.unlinkErr e.name with
            | true =>
                have hstep := @uninstallStep_err env acc i v e n hp hgt he
                have h0 : uninstallLoop env ((i, v, e) :: rest) acc =
                    match uninstallStep env acc (i, v, e) with
                    | .error s => .error s
                    | .ok a => uninstallLoop env rest a := rfl
                rw [h0, hstep] at hr
                cases hr
            | false =>
                cases hf : fsHas e.name acc.st.fs with
                | true =>
                    rw [uninstallLoop_cons_ok rest (uninstallStep_del hp hgt he hf)] at hr
                    exact ih _ _ hpop hr
                | false =>
                    rw [uninstallLoop_cons_ok rest (uninstallStep_miss hp hgt he hf)] at hr
                    exact ih _ _ hpop hr

theorem dinsertMod_keys_mem {k : PyKey} {v : Json} {e : Entry} :
    ∀ {L : ModList} {x : PyKey}, x ∈ (dinsertMod k v e L).map (·.1) →
    x = k ∨ x ∈ L.map (·.1) := by
  intro L
  induction L with
  | nil =>
      intro x hx
      simp [dinsertMod] at hx
      exact Or.inl hx
  | cons m rest ih =>
      intro x hx
      obtain ⟨i', v', e'⟩ := m
      by_cases hk : k = i'
      · rw [dinsertMod, if_pos hk] at hx
        simp only [List.map_cons, List.mem_cons] at hx
        rcases hx with h | h
        · exact Or.inl h
        · exact Or.inr (by simp only [List.map_cons, List.mem_cons]; exact Or.inr h)
      · rw [dinsertMod, if_neg hk] at hx
        simp only [List.map_cons, List.mem_cons] at hx
        rcases hx with h | h
        · exact Or.inr (by simp only [List.map_cons, List.mem_cons]; exact Or.inl h)
        · rcases ih h with h2 | h2
          · exact Or.inl h2
          · exact Or.inr (by simp only [List.map_cons, List.mem_cons]; exact Or.inr h2)

theorem dinsertMod_keys_nodup {k : PyKey} {v : Json} {e : Entry} :
    ∀ {L : ModList}, (L.map (·.1)).Nodup → ((dinsertMod k v e L).map (·.1)).Nodup := by
  intro L
  induction L with
  | nil => intro _; simp [dinsertMod]
  | cons m rest ih =>
      intro h
      obtain ⟨i', v', e'⟩ := m
      simp only [List.map_cons, List.nodup_cons] at h
      by_cases hk : k = i'
      · rw [dinsertMod, if_pos hk]
        simp only [List.map_cons, List.nodup_cons]
        exact ⟨hk ▸ h.1, h.2⟩
      · rw [dinsertMod, if_neg hk]
        simp only [List.map_cons, List.nodup_cons]
        refine ⟨?_, ih h.2⟩
        intro hmem
        rcases dinsertMod_keys_mem hmem with h2 | h2
        · exact hk h2.symm
        · exact h.1 h2

theorem scanStep_ids_nodup {acc : ScanAcc} {e : Entry} {a : ScanAcc}
    (h : scanStep acc e = .ok a) (hnd : (acc.mods.map (·.1)).Nodup) :
    (a.mods.map (·.1)).Nodup := by
  unfold scanStep at h
  split at h
  · cases h; exact hnd
  split at h
  · cases h; exact hnd
  split at h
  · split at h
    · cases h
    · cases h; exact dinsertMod_keys_nodup hnd
  · split at h
    · cases h; exact hnd
    split at h
    · cases h
    · cases h; exact hnd
    · split at h
      · cases h
      · cases h; exact dinsertMod_keys_nodup hnd

theorem scanAux_ids_nodup : ∀ {xs : List Entry} {acc a : ScanAcc},
    scanAux xs acc = .ok a → (acc.mods.map (·.1)).Nodup → (a.mods.map (·.1)).Nodup := by
  intro xs
  induction xs with
  | nil =>
      intro acc a h hnd
      cases h
      exact hnd
  | cons e rest ih =>
      intro acc a h hnd
      unfold scanAux at h
      cases hs : scanStep acc e with
      | error c => rw [hs] at h; cases h
      | ok a1 =>
          rw [hs] at h
          exact ih h (scanStep_ids_nodup hs hnd)

theorem scan_ids_nodup {entries : List Entry} {c : Cache} {out : ScanAcc}
    (h : get_mod_versions entries c = .ok out) : (out.mods.map (·.1)).Nodup :=
  scanAux_ids_nodup h (by simp)

theorem fsHas_false_of_not_mem {n : String} : ∀ {fs : List Entry},
    n ∉ fs.map (·.name) → fsHas n fs = false := by
  intro fs
  induction fs with
  | nil => intro _; rfl
  | cons x rest ih =>
      intro h
      simp only [List.map_cons, List.mem_cons, not_or] at h
      show (decide (x.name = n) || fsHas n rest) = false
      rw [ih h.2, Bool.or_false, decide_eq_false_iff_not]
      exact fun hh => h.1 hh.symm

theorem fsHas_true_of_mem {n : String} {fs : List Entry}
    (h : n ∈ fs.map (·.name)) : fsHas n fs = true := by
  obtain ⟨e, he, hen⟩ := List.mem_map.mp h
  simp only [fsHas, List.any_eq_true]
  exact ⟨e, he, by rw [hen]; simp⟩

theorem lookupMod_dinsert_self (i : PyKey) (v : Json) (e : Entry) :
    ∀ (L : ModList), lookupMod i (dinsertMod i v e L) = some (v, e) := by
  intro L
  induction L with
  | nil => simp [dinsertMod, lookupMod]
  | cons m rest ih =>
      obtain ⟨i', v', e'⟩ := m
      by_cases hk : i = i'
      · rw [dinsertMod, if_pos hk, lookupMod, if_pos rfl]
      · rw [dinsertMod, if_neg hk, lookupMod, if_neg hk]
        exact ih

theorem install_pack_eval {env : Env} {st : St} {pack : List Entry} {out : ScanAcc}
    (h : get_mod_versions pack st.cache = .ok out) :
    install_pack env st pack =
      (let acc := installLoop env out.mods
        ⟨{ st with cache := out.cache }, 0, 0, 0, [.identified out.mods.length false]⟩
       .ok (acc.st,
        ⟨acc.installed, acc.skipped, acc.failed,
          acc.events ++ [.packInstalled acc.installed acc.skipped acc.failed]⟩)) := by
  unfold install_pack
  rw [h]

theorem uninstall_pack_eval {env : Env} {st : St} {pack : List Entry} {out : ScanAcc}
    (h : get_mod_versions pack st.cache = .ok out) :
    uninstall_pack env st pack =
      (match uninstallLoop env out.mods
        ⟨{ st with cache := out.cache }, 0, 0, 0, [.identified out.mods.length true]⟩ with
      | .error s => .error s
      | .ok acc =>
        .ok (acc.st,
          ⟨acc.uninstalled, acc.skipped, acc.failed,
            acc.events ++ [.packUninstalled acc.uninstalled acc.skipped acc.failed]⟩)) := by
  unfold uninstall_pack
  rw [h]

theorem installStep_failed_mono (env : Env) (acc : ILoop) (m : PyKey × Json × Entry) :
    acc.failed ≤ (installStep env acc m).failed := by
  obtain ⟨i, v, e⟩ := m
  cases hc : acc.st.current i with
  | some cv =>
      cases hp : acc.st.packed i with
      | some n => rw [installStep_skip_other hc hp]
      | none => rw [installStep_skip_user hc hp]
  | none =>
      cases hcf : env.copyFails e.name with
      | some cause =>
          rw [installStep_new_fail hc hcf]
          show acc.failed ≤ acc.failed + 1
          omega
      | none => rw [installStep_new_ok hc hcf]

theorem installLoop_failed_mono (env : Env) :
    ∀ (L : List (PyKey × Json × Entry)) (acc : ILoop),
    acc.failed ≤ (installLoop env L acc).failed := by
  intro L
  induction L with
  | nil => intro acc; exact le_refl _
  | cons m rest ih =>
      intro acc
      exact le_trans (installStep_failed_mono env acc m) (ih (installStep env acc m))

/-- C9: on session close both persistent stores are written regardless of
individual failures; a cache-write failure does not stop the data-store
write; exactly one failure is raised as-is; two failures are raised with the
second chained onto the first. -/
theorem c9_deinit_writes_both_and_chains (e1 e2 : String) :
    (deinit none none = (["modpackdown_cache.json", "modpackdown_data.json"], none)) ∧
    (deinit (some e1) none =
      (["modpackdown_cache.json", "modpackdown_data.json"], some (.e e1))) ∧
    (deinit none (some e2) =
      (["modpackdown_cache.json", "modpackdown_data.json"], some (.e e2))) ∧
    (deinit (some e1) (some e2) =
      (["modpackdown_cache.json", "modpackdown_data.json"],
        some (.pair (.e e1) (.e e2)))) :=
  ⟨rfl, rfl, rfl, rfl⟩

theorem scanStep_opened {acc : ScanAcc} {e : Entry} {a : ScanAcc}
    (h : scanStep acc e = .ok a) {n : String}
    (hc : (acc.cache n).isSome) (ho : n ∉ acc.opened) :
    (a.cache n).isSome ∧ n ∉ a.opened := by
  unfold scanStep at h
  split at h
  · cases h; exact ⟨hc, ho⟩
  split at h
  · cases h; exact ⟨hc, ho⟩
  split at h
  · split at h
    · cases h
    · cases h; exact ⟨hc, ho⟩
  · rename_i hmiss
    have hne : n ≠ e.name := by
      intro hh
      rw [hh, hmiss] at hc
      cases hc
    split at h
    · cases h
      refine ⟨hc, ?_⟩
      show n ∉ acc.opened ++ [e.name]
      simp only [List.mem_append, List.mem_singleton]
      exact fun hh => hh.elim ho hne
    split at h
    · cases h
    · cases h
      refine ⟨hc, ?_⟩
      show n ∉ acc.opened ++ [e.name]
      simp only [List.mem_append, List.mem_singleton]
      exact fun hh => hh.elim ho hne
    · split at h
      · cases h
      · cases h
        constructor
        · show ((fun m => if m = e.name then _ else acc.cache m) n).isSome
          simp only [if_neg hne]
          exact hc
        · show n ∉ acc.opened ++ [e.name]
          simp only [List.mem_append, List.mem_singleton]
          exact fun hh => hh.elim ho hne

theorem scanAux_opened : ∀ {xs : List Entry} {acc a : ScanAcc},
    scanAux xs acc = .ok a → ∀ {n : String},
    (acc.cache n).isSome → n ∉ acc.opened → n ∉ a.opened := by
  intro xs
  induction xs with
  | nil =>
      intro acc a h n hc ho
      cases h
      exact ho
  | cons e rest ih =>
      intro acc a h n hc ho
      unfold scanAux at h
      cases hs : scanStep acc e with
      | error c => rw [hs] at h; cases h
      | ok a1 =>
          rw [hs] at h
          obtain ⟨hc1, ho1⟩ := scanStep_opened hs hc ho
          exact ih h hc1 ho1

/-- C10: the shared Version Cache is keyed by bare file name: a candidate
entry whose name is a cache hit is assigned the cached `(id, version)` with
no dependence on (and no read of) the entry's actual content, and a scan
never opens a file whose name was in the cache when the scan started. -/
theorem c10_cache_hit_uses_cached_descriptor :
    (∀ (acc : ScanAcc) (i v : Json) (k : PyKey) (e : Entry),
      endsWithJar e.name = true → e.isFile = true →
      acc.cache e.name = some (i, v) → toKey i = some k →
      scanStep acc e = .ok { acc with mods := dinsertMod k v e acc.mods }) ∧
    (∀ (entries : List Entry) (c : Cache) (out : ScanAcc),
      get_mod_versions entries c = .ok out →
      ∀ n, (c n).isSome → n ∉ out.opened) := by
  constructor
  · intro acc i v k e hj hf hc hk
    unfold scanStep
    simp [hj, hf, hc, hk]
  · intro entries c out h n hc
    exact scanAux_opened h hc (by simp)

theorem c10_witness :
    (scanStep ⟨[], c10c, []⟩ c10e =
      .ok ⟨[(.str "m", .str "9", c10e)], c10c, []⟩) ∧
    "p.jar" ∉ (⟨[(.str "m", .str "9", c10e)], c10c, []⟩ : ScanAcc).opened :=
  ⟨c10_cache_hit_uses_cached_descriptor.1 ⟨[], c10c, []⟩ (.str "m") (.str "9")
      (.str "m") c10e (by decide) rfl rfl rfl,
   c10_cache_hit_uses_cached_descriptor.2 [c10e] c10c
      ⟨[(.str "m", .str "9", c10e)], c10c, []⟩ rfl "p.jar" rfl⟩

theorem installLoop_mid_fail (env : Env) (L1 L2 : List (PyKey × Json × Entry))
    (i : PyKey) (v : Json) (e : Entry) (cause : String) (acc : ILoop)
    (hcur : acc.st.current i = none)
    (hcf : env.copyFails e.name = some cause)
    (hni : i ∉ L2.map (·.1)) :
    (installLoop env (L1 ++ (i, v, e) :: L2) acc).st.packed i = some 1 ∧
    acc.failed + 1 ≤ (installLoop env (L1 ++ (i, v, e) :: L2) acc).failed ∧
    Ev.failInstall i v cause ∈ (installLoop env (L1 ++ (i, v, e) :: L2) acc).events := by
  rw [installLoop_append]
  obtain ⟨f1, f2, t1, ht1⟩ := installLoop_frame env L1 acc
  set accA := installLoop env L1 acc with haccA
  have hcurA : accA.st.current i = none := by rw [f1]; exact hcur
  have hstep := @installStep_new_fail env accA i v e cause hcurA hcf
  have hrest : installLoop env ((i, v, e) :: L2) accA =
      installLoop env L2 (installStep env accA (i, v, e)) := rfl
  rw [hrest, hstep]
  set accB : ILoop :=
    { accA with
      st := { accA.st with packed := fun x => if x = i then some 1 else accA.st.packed x }
      failed := accA.failed + 1
      events := accA.events ++ [.failInstall i v cause] } with haccB
  refine ⟨?_, ?_, ?_⟩
  · rw [installLoop_packed_out env L2 accB i hni]
    show (if i = i then some 1 else accA.st.packed i) = some 1
    rw [if_pos rfl]
  · have h1 := installLoop_failed_mono env L1 acc
    rw [← haccA] at h1
    have h2 := installLoop_failed_mono env L2 accB
    have h3 : accB.failed = accA.failed + 1 := rfl
    omega
  · obtain ⟨g1, g2, t2, ht2⟩ := installLoop_frame env L2 accB
    rw [ht2]
    have hmem : Ev.failInstall i v cause ∈ accB.events := by
      show Ev.failInstall i v cause ∈ accA.events ++ [Ev.failInstall i v cause]
      simp
    exact List.mem_append_left _ hmem

/-- C8: when the copy of a genuinely new mod fails, the failed tally is
incremented, a failure event carrying the cause is emitted, the store entry
already set to 1 is not rolled back (it is still 1 after the call), and the
call still completes over the rest of the pack. -/
theorem c8_copy_failure_records_intent
    (env : Env) (st : St) (pack : List Entry) (L1 L2 : List (PyKey × Json × Entry))
    (i : PyKey) (v : Json) (e : Entry) (cause : String)
    (hscan : scanMods pack st.cache = some (L1 ++ (i, v, e) :: L2))
    (hcur : st.current i = none)
    (hcf : env.copyFails e.name = some cause)
    (hni : i ∉ L2.map (·.1)) :
    ∃ st' out, install_pack env st pack = .ok (st', out) ∧
      st'.packed i = some 1 ∧
      1 ≤ out.failed ∧
      Ev.failInstall i v cause ∈ out.events := by
  unfold scanMods at hscan
  cases hgm : get_mod_versions pack st.cache with
  | error c =>
      rw [hgm] at hscan
      cases hscan
  | ok out =>
      rw [hgm] at hscan
      replace hscan : some out.mods = some (L1 ++ (i, v, e) :: L2) := hscan
      injection hscan with hmods
      rw [install_pack_eval hgm]
      set acc0 : ILoop :=
        ⟨{ st with cache := out.cache }, 0, 0, 0, [.identified out.mods.length false]⟩ with hacc0
      have hcur0 : acc0.st.current i = none := hcur
      obtain ⟨p1, p2, p3⟩ := installLoop_mid_fail env L1 L2 i v e cause acc0 hcur0 hcf hni
      rw [hmods]
      refine ⟨_, _, rfl, p1, ?_, ?_⟩
      · show 1 ≤ (installLoop env (L1 ++ (i, v, e) :: L2) acc0).failed
        have h0 : acc0.failed = 0 := rfl
        omega
      · show Ev.failInstall i v cause ∈
          (installLoop env (L1 ++ (i, v, e) :: L2) acc0).events ++
            [Ev.packInstalled (installLoop env (L1 ++ (i, v, e) :: L2) acc0).installed
              (installLoop env (L1 ++ (i, v, e) :: L2) acc0).skipped
              (installLoop env (L1 ++ (i, v, e) :: L2) acc0).failed]
        exact List.mem_append_left _ p3

theorem c8_witness :
    ∃ st' out, install_pack c8Env emptySt [modEntry "m.jar" "m" "1"] = .ok (st', out) ∧
      st'.packed (.str "m") = some 1 ∧
      1 ≤ out.failed ∧
      Ev.failInstall (.str "m") (.str "1") "disk full" ∈ out.events :=
  c8_copy_failure_records_intent c8Env emptySt [modEntry "m.jar" "m" "1"] [] []
    (.str "m") (.str "1") (modEntry "m.jar" "m" "1") "disk full" rfl rfl rfl (by simp)

theorem scan_total : ∀ (xs : List Entry) (acc : ScanAcc),
    cacheSafe acc.cache → (∀ e ∈ xs, entrySafe e = true) →
    ∃ out, scanAux xs acc = .ok out := by
  intro xs
  induction xs with
  | nil => intro acc _ _; exact ⟨acc, rfl⟩
  | cons e rest ih =>
      intro acc hcs hsafe
      have hsrest : ∀ x ∈ rest, entrySafe x = true :=
        fun x hx => hsafe x (List.mem_cons_of_mem _ hx)
      by_cases hj : endsWithJar e.name
      · by_cases hf : e.isFile
        · cases hcc : acc.cache e.name with
          | some iv =>
              obtain ⟨i, v⟩ := iv
              obtain ⟨k, hk⟩ := Option.isSome_iff_exists.mp (hcs e.name (i, v) hcc)
              have hstep : scanStep acc e = .ok { acc with mods := dinsertMod k v e acc.mods } := by
                unfold scanStep
                simp [hj, hf, hcc, hk]
              obtain ⟨out, hout⟩ := ih { acc with mods := dinsertMod k v e acc.mods } hcs hsrest
              exact ⟨out, by rw [scanAux_cons_ok rest hstep]; exact hout⟩
          | none =>
              cases hd : e.data with
              | notZip =>
                  have hstep : scanStep acc e = .ok { acc with opened := acc.opened ++ [e.name] } := by
                    unfold scanStep
                    simp [hj, hf, hcc, hd]
                  obtain ⟨out, hout⟩ := ih { acc with opened := acc.opened ++ [e.name] } hcs hsrest
                  exact ⟨out, by rw [scanAux_cons_ok rest hstep]; exact hout⟩
              | zip mst =>
                  have hse : entrySafe e = true := hsafe e (List.mem_cons_self _ _)
                  unfold entrySafe at hse
                  rw [hd] at hse
                  replace hse : (match read_mod_version mst with
                    | .error _ => false
                    | .ok none => true
                    | .ok (some (i, _)) => (toKey i).isSome) = true := hse
                  cases hr : read_mod_version mst with
                  | error u =>
                      exfalso
                      rw [hr] at hse
                      cases hse
                  | ok info =>
                      cases info with
                      | none =>
                          have hstep : scanStep acc e =
                              .ok { acc with opened := acc.opened ++ [e.name] } := by
                            unfold scanStep
                            simp [hj, hf, hcc, hd, hr]
                          obtain ⟨out, hout⟩ :=
                            ih { acc with opened := acc.opened ++ [e.name] } hcs hsrest
                          exact ⟨out, by rw [scanAux_cons_ok rest hstep]; exact hout⟩
                      | some iv =>
                          obtain ⟨i, v⟩ := iv
                          have hks : (toKey i).isSome := by
                            rw [hr] at hse
                            exact hse
                          obtain ⟨k, hk⟩ := Option.isSome_iff_exists.mp hks
                          have hstep : scanStep acc e =
                              .ok ⟨dinsertMod k v e acc.mods,
                                fun n => if n = e.name then some (i, v) else acc.cache n,
                                acc.opened ++ [e.name]⟩ := by
                            unfold scanStep
                            simp [hj, hf, hcc, hd, hr, hk]
                          have hcs2 : cacheSafe
                              (fun n => if n = e.name then some (i, v) else acc.cache n) := by
                            intro n p hp
                            have hp2 : (if n = e.name then some (i, v) else acc.cache n)
                                = some p := hp
                            by_cases hn : n = e.name
                            · rw [if_pos hn] at hp2
                              injection hp2 with hpp
                              rw [← hpp]
                              exact hks
                            · rw [if_neg hn] at hp2
                              exact hcs n p hp2
                          obtain ⟨out, hout⟩ :=
                            ih ⟨dinsertMod k v e acc.mods,
                              fun n => if n = e.name then some (i, v) else acc.cache n,
                              acc.opened ++ [e.name]⟩ hcs2 hsrest
                          exact ⟨out, by rw [scanAux_cons_ok rest hstep]; exact hout⟩
        · have hstep : scanStep acc e = .ok acc := by
            unfold scanStep
            simp [hj, hf]
          obtain ⟨out, hout⟩ := ih acc hcs hsrest
          exact ⟨out, by rw [scanAux_cons_ok rest hstep]; exact hout⟩
      · have hstep : scanStep acc e = .ok acc := by
          unfold scanStep
          simp [hj]
        obtain ⟨out, hout⟩ := ih acc hcs hsrest
        exact ⟨out, by rw [scanAux_cons_ok rest hstep]; exact hout⟩

/-- C7 counterexample: a jar whose manifest parses to a non-object value
makes the scan raise (Python `AttributeError` from `.get` on a non-dict),
and an object manifest with a non-string id is accepted, not excluded. -/
theorem c7_counterexample :
    read_mod_version (.json (.arr [])) = .error () ∧
    get_mod_versions [⟨"x.jar", true, .zip (.json (.arr []))⟩] emptyCache =
      .error emptyCache ∧
    scanMods [⟨"y.jar", true, .zip (.json (.obj
        [("schemaVersion", .num 1), ("id", .num 5), ("version", .str "1.0")]))⟩] emptyCache =
      some [(.num 5, .str "1.0", ⟨"y.jar", true, .zip (.json (.obj
        [("schemaVersion", .num 1), ("id", .num 5), ("version", .str "1.0")]))⟩)] :=
  ⟨rfl, rfl, rfl⟩

/-- C7 (amended): extraction fails softly for an absent manifest, an
unparsable manifest, or an object manifest failing the schema/id/version
checks; and a scan over entries whose manifests are benign in this sense
(non-object manifest values excluded, accepted ids hashable), with a cache
whose stored ids are hashable, never raises. -/
theorem c7_soft_failure_amended :
    (read_mod_version .absent = .ok none) ∧
    (read_mod_version .unparsable = .ok none) ∧
    (∀ (fields : List (String × Json)),
      pyEqOne (jsonGet "schemaVersion" fields) = false ∨
      pyGet fields "id" = none ∨ pyGet fields "version" = none →
      read_mod_version (.json (.obj fields)) = .ok none) ∧
    (∀ (entries : List Entry) (c : Cache),
      cacheSafe c → (∀ e ∈ entries, entrySafe e = true) →
      ∃ out, get_mod_versions entries c = .ok out) := by
  refine ⟨rfl, rfl, ?_, ?_⟩
  · intro fields h
    have hred : read_mod_version (.json (.obj fields)) =
        (if pyEqOne (jsonGet "schemaVersion" fields) then
          match pyGet fields "id", pyGet fields "version" with
          | some i, some v => Except.ok (some (i, v))
          | _, _ => Except.ok none
        else Except.ok none) := rfl
    rw [hred]
    rcases h with h | h | h
    · rw [h]
      rfl
    · cases hsv : pyEqOne (jsonGet "schemaVersion" fields) with
      | false => rfl
      | true =>
          rw [h]
          cases hv : pyGet fields "version" with
          | none => rfl
          | some v => rfl
    · cases hsv : pyEqOne (jsonGet "schemaVersion" fields) with
      | false => rfl
      | true =>
          rw [h]
          cases hi : pyGet fields "id" with
          | none => rfl
          | some i => rfl
  · intro entries c hcs hsafe
    exact scan_total entries ⟨[], c, []⟩ hcs hsafe

theorem c7_witness :
    read_mod_version (.json (.obj [("schemaVersion", .num 2)])) = .ok none ∧
    ∃ out, get_mod_versions [modEntry "w.jar" "w" "1"] emptyCache = .ok out :=
  ⟨c7_soft_failure_amended.2.2.1 [("schemaVersion", .num 2)] (Or.inl rfl),
   c7_soft_failure_amended.2.2.2 [modEntry "w.jar" "w" "1"] emptyCache
     (fun n p h => by simp [emptyCache] at h) (by decide)⟩

/-- C6 counterexample: an uninstall aborted by an unexpected deletion error
leaves the decremented-to-0 entry in the store: the invariant held before
the call and is violated in the state the aborted call leaves behind. -/
theorem c6_counterexample :
    StoreInv c6St.packed ∧
    (∃ s, uninstall_pack c6Env c6St [modEntry "m.jar" "m" "1"] = .error s) ∧
    (resStU (uninstall_pack c6Env c6St [modEntry "m.jar" "m" "1"])).packed (.str "m") =
      some 0 ∧
    ¬ StoreInv (resStU (uninstall_pack c6Env c6St [modEntry "m.jar" "m" "1"])).packed := by
  refine ⟨?_, ⟨_, rfl⟩, rfl, ?_⟩
  · intro x k hk
    have hk2 : (if x = PyKey.str "m" then some 1 else none) = some k := hk
    by_cases hx : x = .str "m"
    · rw [if_pos hx] at hk2
      injection hk2 with h3
      omega
    · rw [if_neg hx] at hk2
      cases hk2
  · intro hinv
    have h0 := hinv (.str "m") 0 rfl
    omega

/-- C6 (amended): the store invariant (present entries have count ≥ 1,
entries decremented to 0 are deleted) is preserved by every `install_pack`
call, completed or aborted, and by every completed `uninstall_pack` call;
an uninstall aborted by an unexpected deletion error is the exception. -/
theorem c6_store_invariant_amended :
    (∀ (env : Env) (st : St) (pack : List Entry), StoreInv st.packed →
      StoreInv (resStI (install_pack env st pack)).packed) ∧
    (∀ (env : Env) (st : St) (pack : List Entry) (st' : St) (out : UninstallOut),
      StoreInv st.packed → uninstall_pack env st pack = .ok (st', out) →
      StoreInv st'.packed) := by
  constructor
  · intro env st pack h
    cases hgm : get_mod_versions pack st.cache with
    | error c =>
        have heq : install_pack env st pack = .error { st with cache := c } := by
          unfold install_pack
          rw [hgm]
        rw [heq]
        exact h
    | ok out =>
        rw [install_pack_eval hgm]
        exact installLoop_inv env out.mods _ h
  · intro env st pack st' out hinv heq
    cases hgm : get_mod_versions pack st.cache with
    | error c =>
        have heq2 : uninstall_pack env st pack = .error { st with cache := c } := by
          unfold uninstall_pack
          rw [hgm]
        rw [heq2] at heq
        cases heq
    | ok sout =>
        rw [uninstall_pack_eval hgm] at heq
        cases hloop : uninstallLoop env sout.mods
            ⟨{ st with cache := sout.cache }, 0, 0, 0, [.identified sout.mods.length true]⟩ with
        | error s =>
            rw [hloop] at heq
            cases heq
        | ok acc =>
            rw [hloop] at heq
            injection heq with h2
            injection h2 with h3 h4
            rw [← h3]
            exact uninstallLoop_inv env sout.mods _ acc hinv hloop

theorem c6_witness :
    StoreInv (resStI (install_pack envOk emptySt [modEntry "m.jar" "m" "1"])).packed ∧
    StoreInv (resStU (uninstall_pack envOk emptySt [modEntry "x.jar" "x" "1"])).packed :=
  ⟨c6_store_invariant_amended.1 envOk emptySt [modEntry "m.jar" "m" "1"]
      (fun i n h => by simp [emptySt] at h),
   c6_store_invariant_amended.2 envOk emptySt [modEntry "x.jar" "x" "1"] _ _
      (fun i n h => by simp [emptySt] at h) rfl⟩

/-- C2 counterexample: within one open session, the current-mods listing is
never refreshed, so re-installing a pack whose mod was genuinely new
re-reports it as installed (not skipped) and resets its count to 1 instead
of incrementing it. -/
theorem c2_counterexample :
    ioutCounts (install_pack envOk emptySt c2Pack) = some (1, 0, 0) ∧
    ioutCounts (install_pack envOk (resStI (install_pack envOk emptySt c2Pack)) c2Pack) =
      some (1, 0, 0) ∧
    (resStI (install_pack envOk (resStI (install_pack envOk emptySt c2Pack)) c2Pack)).packed
      (.str "m") = some 1 :=
  ⟨rfl, rfl, rfl⟩

/-- C2 (amended): for a pack all of whose scanned mods are already present
in the current listing and tracked in the store, installing it twice in one
session copies nothing, reports every mod as a skip on both runs, and
increments each mod's count by exactly 1 on each run. -/
theorem c2_reinstall_amended
    (env : Env) (st : St) (pack : List Entry) (L : List (PyKey × Json × Entry))
    (hnd : (pack.map (·.name)).Nodup)
    (hscan : scanMods pack st.cache = some L)
    (hyp : ∀ m ∈ L, (st.current m.1).isSome ∧ (st.packed m.1).isSome) :
    ∃ st1 o1 st2 o2,
      install_pack env st pack = .ok (st1, o1) ∧
      install_pack env st1 pack = .ok (st2, o2) ∧
      o1.installed = 0 ∧ o1.skipped = L.length ∧ o1.failed = 0 ∧
      o2.installed = 0 ∧ o2.skipped = L.length ∧ o2.failed = 0 ∧
      st1.fs = st.fs ∧ st2.fs = st.fs ∧
      (∀ m ∈ L, ∀ n : Int, st.packed m.1 = some n →
        st1.packed m.1 = some (n + 1) ∧ st2.packed m.1 = some (n + 2)) := by
  unfold scanMods at hscan
  cases hgm : get_mod_versions pack st.cache with
  | error c =>
      rw [hgm] at hscan
      cases hscan
  | ok out =>
      rw [hgm] at hscan
      replace hscan : some out.mods = some L := hscan
      injection hscan with hmods
      obtain ⟨Lm, cF, oF⟩ := out
      replace hmods : Lm = L := hmods
      subst hmods
      have hidnd : (Lm.map (·.1)).Nodup := scan_ids_nodup hgm
      rw [install_pack_eval hgm]
      set acc0 : ILoop :=
        ⟨{ st with cache := cF }, 0, 0, 0,
          [.identified (⟨Lm, cF, oF⟩ : ScanAcc).mods.length false]⟩ with hacc0
      have hyp0 : ∀ m ∈ Lm, (acc0.st.current m.1).isSome ∧ (acc0.st.packed m.1).isSome := hyp
      obtain ⟨q1, q2, q3, q4, q5, q6, q7, q8⟩ := installLoop_all_skip env Lm acc0 hidnd hyp0
      set accA := installLoop env Lm acc0 with haccA
      obtain ⟨o₃, h₃⟩ := rescan_agree pack hnd [] st.cache [] Lm cF oF hgm cF []
        (fun _ _ => rfl)
      have hgm2 : get_mod_versions pack accA.st.cache = .ok ⟨Lm, cF, o₃⟩ := by
        rw [q2]
        exact h₃
      set acc1 : ILoop :=
        ⟨{ accA.st with cache := cF }, 0, 0, 0,
          [.identified (⟨Lm, cF, o₃⟩ : ScanAcc).mods.length false]⟩ with hacc1
      have hyp1 : ∀ m ∈ Lm, (acc1.st.current m.1).isSome ∧ (acc1.st.packed m.1).isSome := by
        intro m hm
        obtain ⟨h1, h2⟩ := hyp m hm
        constructor
        · show (accA.st.current m.1).isSome
          rw [q1]
          exact h1
        · show (accA.st.packed m.1).isSome
          obtain ⟨n, hn⟩ := Option.isSome_iff_exists.mp h2
          rw [q8 m hm n hn]
          rfl
      obtain ⟨r1, r2, r3, r4, r5, r6, r7, r8⟩ := installLoop_all_skip env Lm acc1 hidnd hyp1
      set accB := installLoop env Lm acc1 with haccB
      refine ⟨accA.st,
        ⟨accA.installed, accA.skipped, accA.failed,
          accA.events ++ [.packInstalled accA.installed accA.skipped accA.failed]⟩,
        accB.st,
        ⟨accB.installed, accB.skipped, accB.failed,
          accB.events ++ [.packInstalled accB.installed accB.skipped accB.failed]⟩,
        rfl, ?_, ?_, ?_, ?_, ?_, ?_, ?_, ?_, ?_, ?_⟩
      · rw [install_pack_eval hgm2]
      · show accA.installed = 0
        rw [q4]
      · show accA.skipped = Lm.length
        rw [q6]
        show 0 + Lm.length = Lm.length
        omega
      · show accA.failed = 0
        rw [q5]
      · show accB.installed = 0
        rw [r4]
      · show accB.skipped = Lm.length
        rw [r6]
        show 0 + Lm.length = Lm.length
        omega
      · show accB.failed = 0
        rw [r5]
      · show accA.st.fs = st.fs
        rw [q3]
      · show accB.st.fs = st.fs
        rw [r3]
        show accA.st.fs = st.fs
        rw [q3]
      · intro m hm n hn
        have hb1 : accA.st.packed m.1 = some (n + 1) := q8 m hm n hn
        have hb2 : accB.st.packed m.1 = some (n + 1 + 1) := r8 m hm (n + 1) hb1
        refine ⟨hb1, ?_⟩
        rw [hb2]
        have : n + 1 + 1 = n + 2 := by omega
        rw [this]

theorem c2_witness :
    ∃ st1 o1 st2 o2,
      install_pack envOk c2wSt c2Pack = .ok (st1, o1) ∧
      install_pack envOk st1 c2Pack = .ok (st2, o2) ∧
      o1.installed = 0 ∧
      o1.skipped = [((.str "m" : PyKey), ((.str "1" : Json), modEntry "m.jar" "m" "1"))].length ∧
      o1.failed = 0 ∧
      o2.installed = 0 ∧
      o2.skipped = [((.str "m" : PyKey), ((.str "1" : Json), modEntry "m.jar" "m" "1"))].length ∧
      o2.failed = 0 ∧
      st1.fs = c2wSt.fs ∧ st2.fs = c2wSt.fs ∧
      (∀ m ∈ [((.str "m" : PyKey), ((.str "1" : Json), modEntry "m.jar" "m" "1"))], ∀ n : Int,
        c2wSt.packed m.1 = some n →
        st1.packed m.1 = some (n + 1) ∧ st2.packed m.1 = some (n + 2)) :=
  c2_reinstall_amended envOk c2wSt c2Pack
    [(.str "m", .str "1", modEntry "m.jar" "m" "1")]
    (by decide) rfl (by decide)

/-- C4 counterexample: with the listing recording `mdir.jar` for `m` and the
pack carrying `mpack.jar`, the count-0 deletion targets `mpack.jar` (absent),
fails with "it was missing", and leaves the listing-recorded file in place. -/
theorem c4_counterexample :
    uoutCounts (uninstall_pack envOk c4St [c4PackE]) = some (0, 0, 1) ∧
    (resStU (uninstall_pack envOk c4St [c4PackE])).fs = [c4DirE] ∧
    uoutEvents (uninstall_pack envOk c4St [c4PackE]) =
      some [.identified 1 true, .failUninstall (.str "m") (.str "2") "it was missing",
        .packUninstalled 0 0 1] :=
  ⟨rfl, rfl, rfl⟩

/-- C4 (amended): when a mod's count reaches 0 during uninstall, the file
targeted for deletion is `mods_dir / mod_origin.name` — the file name of the
pack's own copy — independently of the name the current listing records for
that identifier; if that pack-named file is absent the deletion fails with
"it was missing" while the store and listing entries are still removed. -/
theorem c4_delete_targets_pack_name_amended
    (env : Env) (st : St) (i : PyKey) (v : Json) (e : Entry)
    (hscan : scanMods [e] st.cache = some [(i, v, e)])
    (hp : st.packed i = some 1)
    (he : env.unlinkErr e.name = false) :
    ∃ st' out, uninstall_pack env st [e] = .ok (st', out) ∧
      st'.fs = fsErase e.name st.fs ∧
      st'.packed i = none ∧
      st'.current i = none ∧
      (fsHas e.name st.fs = true →
        out.uninstalled = 1 ∧ out.skipped = 0 ∧ out.failed = 0) ∧
      (fsHas e.name st.fs = false →
        out.failed = 1 ∧ out.uninstalled = 0 ∧
        Ev.failUninstall i v "it was missing" ∈ out.events) := by
  unfold scanMods at hscan
  cases hgm : get_mod_versions [e] st.cache with
  | error c =>
      rw [hgm] at hscan
      cases hscan
  | ok out =>
      rw [hgm] at hscan
      replace hscan : some out.mods = some [(i, v, e)] := hscan
      injection hscan with hmods
      obtain ⟨Lm, cF, oF⟩ := out
      replace hmods : Lm = [(i, v, e)] := hmods
      subst hmods
      rw [uninstall_pack_eval hgm]
      set acc0 : ULoop :=
        ⟨{ st with cache := cF }, 0, 0, 0,
          [.identified (⟨[(i, v, e)], cF, oF⟩ : ScanAcc).mods.length true]⟩ with hacc0
      have hp0 : acc0.st.packed i = some 1 := hp
      have hgt : ¬ (1 : Int) - 1 > 0 := by norm_num
      cases hf : fsHas e.name st.fs with
      | true =>
          have hf0 : fsHas e.name acc0.st.fs = true := hf
          have hstep := @uninstallStep_del env acc0 i v e 1 hp0 hgt he hf0
          set acc1 : ULoop :=
            { acc0 with
              st := { acc0.st with
                current := fun x => if x = i then none else acc0.st.current x
                packed := fun x => if x = i then none else acc0.st.packed x
                fs := fsErase e.name acc0.st.fs }
              uninstalled := acc0.uninstalled + 1
              events := acc0.events ++ [.okUninstall i v] } with hacc1
          have hloop : uninstallLoop env [(i, v, e)] acc0 = .ok acc1 := by
            rw [uninstallLoop_cons_ok [] hstep]
            rfl
          refine ⟨acc1.st,
            ⟨acc1.uninstalled, acc1.skipped, acc1.failed,
              acc1.events ++ [.packUninstalled acc1.uninstalled acc1.skipped acc1.failed]⟩,
            ?_, rfl, ?_, ?_, fun _ => ⟨rfl, rfl, rfl⟩, ?_⟩
          · rw [hloop]
          · show (if i = i then none else acc0.st.packed i) = none
            rw [if_pos rfl]
          · show (if i = i then none else acc0.st.current i) = none
            rw [if_pos rfl]
          · intro hcontra
            cases hcontra
      | false =>
          have hf0 : fsHas e.name acc0.st.fs = false := hf
          have hstep := @uninstallStep_miss env acc0 i v e 1 hp0 hgt he hf0
          set acc1 : ULoop :=
            { acc0 with
              st := { acc0.st with
                current := fun x => if x = i then none else acc0.st.current x
                packed := fun x => if x = i then none else acc0.st.packed x }
              failed := acc0.failed + 1
              events := acc0.events ++ [.failUninstall i v "it was missing"] } with hacc1
          have hloop : uninstallLoop env [(i, v, e)] acc0 = .ok acc1 := by
            rw [uninstallLoop_cons_ok [] hstep]
            rfl
          refine ⟨acc1.st,
            ⟨acc1.uninstalled, acc1.skipped, acc1.failed,
              acc1.events ++ [.packUninstalled acc1.uninstalled acc1.skipped acc1.failed]⟩,
            ?_, ?_, ?_, ?_, ?_, ?_⟩
          · rw [hloop]
          · show acc0.st.fs = fsErase e.name st.fs
            rw [fsErase_not_has hf]
          · show (if i = i then none else acc0.st.packed i) = none
            rw [if_pos rfl]
          · show (if i = i then none else acc0.st.current i) = none
            rw [if_pos rfl]
          · intro hcontra
            cases hcontra
          · intro _
            refine ⟨rfl, rfl, ?_⟩
            show Ev.failUninstall i v "it was missing" ∈
              (acc0.events ++ [Ev.failUninstall i v "it was missing"]) ++
                [Ev.packUninstalled acc1.uninstalled acc1.skipped acc1.failed]
            simp

theorem c4_witness :
    ∃ st' out, uninstall_pack envOk c4St [c4PackE] = .ok (st', out) ∧
      st'.fs = fsErase "mpack.jar" c4St.fs ∧
      st'.packed (.str "m") = none ∧
      st'.current (.str "m") = none ∧
      (fsHas "mpack.jar" c4St.fs = true →
        out.uninstalled = 1 ∧ out.skipped = 0 ∧ out.failed = 0) ∧
      (fsHas "mpack.jar" c4St.fs = false →
        out.failed = 1 ∧ out.uninstalled = 0 ∧
        Ev.failUninstall (.str "m") (.str "2") "it was missing" ∈ out.events) :=
  c4_delete_targets_pack_name_amended envOk c4St (.str "m") (.str "2") c4PackE rfl rfl rfl

/-- C1 (amended): a Version Cache primed by scanning a container is sound
for that container: rescanning with it yields exactly the descriptor mapping
of the original scan and leaves the cache unchanged. (The original claim's
stronger statement — that any primed cache never changes scan results —
fails when a cached file name collides with different content in another
container; see the counterexample.) -/
theorem c1_cache_primed_scan_amended
    (entries : List Entry) (c : Cache) (out : ScanAcc)
    (hnd : (entries.map (·.name)).Nodup)
    (h : get_mod_versions entries c = .ok out) :
    ∃ o₃, get_mod_versions entries out.cache = .ok ⟨out.mods, out.cache, o₃⟩ := by
  obtain ⟨m', c', o'⟩ := out
  exact rescan_agree entries hnd [] c [] m' c' o' h c' [] (fun _ _ => rfl)

theorem c1_witness :
    ∃ o₃, get_mod_versions [modEntry "a.jar" "a" "1"] c1wOut.cache =
      .ok ⟨c1wOut.mods, c1wOut.cache, o₃⟩ :=
  c1_cache_primed_scan_amended [modEntry "a.jar" "a" "1"] emptyCache c1wOut (by decide) rfl

/-- C1 counterexample: after the session-start directory scan primes the
shared cache, scanning a pack whose `foo.jar` has different content yields
the stale directory descriptor (id `a`), while the cache-free scan of the
same pack yields id `b`: the cache is not a pure memoization layer. -/
theorem c1_counterexample :
    (∃ s, init c1St = .ok s) ∧
    scanMods [c1PackE] (initSt (init c1St)).cache = some [(.str "a", .str "1", c1PackE)] ∧
    scanMods [c1PackE] emptyCache = some [(.str "b", .str "2", c1PackE)] :=
  ⟨⟨_, rfl⟩, rfl, rfl⟩

/-- C5 counterexample: all of the pack's mods are absent from the listing
and the store and every file operation succeeds, yet install then uninstall
does not restore the mods directory: the copy overwrites the unrelated
`x.jar` and the uninstall deletes it. -/
theorem c5_counterexample :
    ioutCounts (install_pack envOk c5St c5Pack) = some (1, 0, 0) ∧
    uoutCounts (uninstall_pack envOk (resStI (install_pack envOk c5St c5Pack)) c5Pack) =
      some (1, 0, 0) ∧
    (resStU (uninstall_pack envOk (resStI (install_pack envOk c5St c5Pack)) c5Pack)).fs = [] ∧
    c5St.fs = [c5NonMod] :=
  ⟨rfl, rfl, rfl, rfl⟩

theorem uninstall_pack_eval_ok {env : Env} {st : St} {pack : List Entry}
    {out : ScanAcc} {r : ULoop}
    (hgm : get_mod_versions pack st.cache = .ok out)
    (hloop : uninstallLoop env out.mods
      ⟨{ st with cache := out.cache }, 0, 0, 0, [.identified out.mods.length true]⟩ = .ok r) :
    uninstall_pack env st pack =
      .ok (r.st, ⟨r.uninstalled, r.skipped, r.failed,
        r.events ++ [.packUninstalled r.uninstalled r.skipped r.failed]⟩) := by
  rw [uninstall_pack_eval hgm, hloop]

/-- C5 (amended): for a pack whose scanned mods are all absent from the
current listing and the store, whose target file names are distinct and do
not collide with files already in the mods directory, and with all file
operations succeeding, install followed immediately by uninstall restores
the mods directory and the store exactly, and the installed tally equals
the uninstalled tally. -/
theorem c5_round_trip_amended
    (env : Env) (st : St) (pack : List Entry) (L : List (PyKey × Json × Entry))
    (hnd : (pack.map (·.name)).Nodup)
    (hscan : scanMods pack st.cache = some L)
    (hnames : (L.map (·.2.2.name)).Nodup)
    (hyp : ∀ m ∈ L, st.current m.1 = none ∧ st.packed m.1 = none ∧
      env.copyFails m.2.2.name = none ∧ env.unlinkErr m.2.2.name = false ∧
      fsHas m.2.2.name st.fs = false) :
    ∃ st1 o1 st2 o2,
      install_pack env st pack = .ok (st1, o1) ∧
      uninstall_pack env st1 pack = .ok (st2, o2) ∧
      o1.installed = L.length ∧ o1.skipped = 0 ∧ o1.failed = 0 ∧
      o2.uninstalled = L.length ∧ o2.skipped = 0 ∧ o2.failed = 0 ∧
      o1.installed = o2.uninstalled ∧
      st2.fs = st.fs ∧
      st2.packed = st.packed := by
  unfold scanMods at hscan
  cases hgm : get_mod_versions pack st.cache with
  | error c =>
      rw [hgm] at hscan
      cases hscan
  | ok out =>
      rw [hgm] at hscan
      replace hscan : some out.mods = some L := hscan
      injection hscan with hmods
      obtain ⟨Lm, cF, oF⟩ := out
      replace hmods : Lm = L := hmods
      subst hmods
      have hidnd : (Lm.map (·.1)).Nodup := scan_ids_nodup hgm
      rw [install_pack_eval hgm]
      set acc0 : ILoop :=
        ⟨{ st with cache := cF }, 0, 0, 0,
          [.identified (⟨Lm, cF, oF⟩ : ScanAcc).mods.length false]⟩ with hacc0
      have hyp0 : ∀ m ∈ Lm, acc0.st.current m.1 = none ∧ env.copyFails m.2.2.name = none ∧
          fsHas m.2.2.name acc0.st.fs = false := by
        intro m hm
        obtain ⟨h1, h2, h3, h4, h5⟩ := hyp m hm
        exact ⟨h1, h3, h5⟩
      obtain ⟨q1, q2, q3, q4, q5, q6, q7, q8⟩ := installLoop_all_new env Lm acc0 hnames hyp0
      set accA := installLoop env Lm acc0 with haccA
      set news : List Entry :=
        Lm.map (fun m => (⟨m.2.2.name, true, m.2.2.data⟩ : Entry)) with hnews
      have hnewsnames : news.map (·.name) = Lm.map (·.2.2.name) := by
        rw [hnews, List.map_map]
        rfl
      obtain ⟨o₃, h₃⟩ := rescan_agree pack hnd [] st.cache [] Lm cF oF hgm cF []
        (fun _ _ => rfl)
      have hgm2 : get_mod_versions pack accA.st.cache = .ok ⟨Lm, cF, o₃⟩ := by
        rw [q2]
        exact h₃
      set acc1 : ULoop :=
        ⟨{ accA.st with cache := cF }, 0, 0, 0,
          [.identified (⟨Lm, cF, o₃⟩ : ScanAcc).mods.length true]⟩ with hacc1
      have uhyp : ∀ m ∈ Lm, acc1.st.packed m.1 = some 1 ∧
          env.unlinkErr m.2.2.name = false ∧ fsHas m.2.2.name acc1.st.fs = true := by
        intro m hm
        obtain ⟨h1, h2, h3, h4, h5⟩ := hyp m hm
        refine ⟨q8 m hm, h4, ?_⟩
        show fsHas m.2.2.name accA.st.fs = true
        rw [q3]
        rw [fsHas_append]
        have hmem : m.2.2.name ∈ news.map (·.name) := by
          rw [hnewsnames]
          exact List.mem_map_of_mem (·.2.2.name) hm
        rw [fsHas_true_of_mem hmem]
        simp
      obtain ⟨r, hr, w2, w3, w4, w5, w6, w7, w8⟩ :=
        uninstallLoop_all_del env Lm acc1 hidnd hnames uhyp
      refine ⟨accA.st,
        ⟨accA.installed, accA.skipped, accA.failed,
          accA.events ++ [.packInstalled accA.installed accA.skipped accA.failed]⟩,
        r.st,
        ⟨r.uninstalled, r.skipped, r.failed,
          r.events ++ [.packUninstalled r.uninstalled r.skipped r.failed]⟩,
        rfl, ?_, ?_, ?_, ?_, ?_, ?_, ?_, ?_, ?_, ?_⟩
      · exact uninstall_pack_eval_ok hgm2 hr
      · show accA.installed = Lm.length
        rw [q4]
        show 0 + Lm.length = Lm.length
        omega
      · show accA.skipped = 0
        rw [q6]
      · show accA.failed = 0
        rw [q5]
      · show r.uninstalled = Lm.length
        rw [w4]
        show 0 + Lm.length = Lm.length
        omega
      · show r.skipped = 0
        rw [w5]
      · show r.failed = 0
        rw [w6]
      · show accA.installed = r.uninstalled
        rw [q4, w4]
      · show r.st.fs = st.fs
        rw [w3]
        show eraseList (Lm.map (·.2.2.name)) accA.st.fs = st.fs
        rw [q3]
        show eraseList (Lm.map (·.2.2.name)) (st.fs ++ news) = st.fs
        rw [← hnewsnames]
        refine eraseList_append_all news st.fs ?_ ?_
        · intro e he
          obtain ⟨m, hm, hme⟩ := List.mem_map.mp he
          obtain ⟨h1, h2, h3, h4, h5⟩ := hyp m hm
          rw [← hme]
          exact h5
        · rw [hnewsnames]
          exact hnames
      · show r.st.packed = st.packed
        funext x
        by_cases hx : x ∈ Lm.map (·.1)
        · obtain ⟨m, hm, hmx⟩ := List.mem_map.mp hx
          obtain ⟨h1, h2, h3, h4, h5⟩ := hyp m hm
          rw [← hmx]
          rw [(w8 m hm).1]
          rw [h2]
        · rw [(w7 x hx).1]
          show accA.st.packed x = st.packed x
          rw [q7 x hx]

theorem c5_witness :
    ∃ st1 o1 st2 o2,
      install_pack envOk emptySt [modEntry "w.jar" "w" "1"] = .ok (st1, o1) ∧
      uninstall_pack envOk st1 [modEntry "w.jar" "w" "1"] = .ok (st2, o2) ∧
      o1.installed =
        [((.str "w" : PyKey), ((.str "1" : Json), modEntry "w.jar" "w" "1"))].length ∧
      o1.skipped = 0 ∧ o1.failed = 0 ∧
      o2.uninstalled =
        [((.str "w" : PyKey), ((.str "1" : Json), modEntry "w.jar" "w" "1"))].length ∧
      o2.skipped = 0 ∧ o2.failed = 0 ∧
      o1.installed = o2.uninstalled ∧
      st2.fs = emptySt.fs ∧
      st2.packed = emptySt.packed :=
  c5_round_trip_amended envOk emptySt [modEntry "w.jar" "w" "1"]
    [(.str "w", .str "1", modEntry "w.jar" "w" "1")]
    (by decide) rfl (by decide)
    (by
      intro m hm
      rw [List.mem_singleton] at hm
      subst hm
      exact ⟨rfl, rfl, rfl, rfl, rfl⟩)

/-- C3 counterexample. Scenario 1 (one open session): installing packs A and
B that both declare the genuinely new mod `m` leaves the store count at 1,
not 2, because the listing is never refreshed. Scenario 2 (one session per
operation, as the CLI runs): the count does reach 2, but when A's and B's
copies of `m` have different file names, the final uninstall of B fails with
"it was missing" instead of succeeding, deleting nothing and orphaning the
installed file while the store entry is removed. -/
theorem c3_counterexample :
    (resStI (install_pack envOk (resStI (install_pack envOk emptySt c3A1)) c3B1)).packed
      (.str "m") = some 1 ∧
    c3s4.packed (.str "m") = some 2 ∧
    uoutCounts (uninstall_pack envOk c3s7 c3B) = some (0, 0, 1) ∧
    (resStU (uninstall_pack envOk c3s7 c3B)).packed (.str "m") = none ∧
    (resStU (uninstall_pack envOk c3s7 c3B)).fs = [modEntry "ma.jar" "m" "1"] :=
  ⟨rfl, rfl, rfl, rfl, rfl⟩

theorem install_pack_eval_ok {env : Env} {st : St} {pack : List Entry}
    {out : ScanAcc} {r : ILoop}
    (hgm : get_mod_versions pack st.cache = .ok out)
    (hloop : installLoop env out.mods
      ⟨{ st with cache := out.cache }, 0, 0, 0, [.identified out.mods.length false]⟩ = r) :
    install_pack env st pack =
      .ok (r.st, ⟨r.installed, r.skipped, r.failed,
        r.events ++ [.packInstalled r.installed r.skipped r.failed]⟩) := by
  rw [install_pack_eval hgm, hloop]

theorem init_ok {st : St} {out : ScanAcc}
    (hgm : get_mod_versions st.fs st.cache = .ok out) :
    init st = .ok { st with cache := out.cache, current := lookupModFn out.mods } := by
  unfold init
  rw [hgm]

/-- C3 (amended): with each operation run in its own session (a fresh
directory scan before each command, as the CLI does) and packs A and B
carrying their copy of mod `i` under the same file name `n` (fresh in the
directory), the reference-counting lifecycle holds: install A copies the
file and sets the count to 1, install B skips and raises it to 2, uninstall
A skips and lowers it to 1 keeping the file, and uninstall B succeeds,
removing the store entry and deleting the file. Pack B's content is never
even read (its name is a cache hit). -/
theorem c3_overlap_amended
    (env : Env) (st0 : St) (i : PyKey) (iJ vA : Json) (mA : ManifestState)
    (dB : FileData) (n : String) (Ld : ModList) (cD : Cache) (oD : List String)
    (hjar : endsWithJar n = true)
    (hdnd : (st0.fs.map (·.name)).Nodup)
    (hnfs : n ∉ st0.fs.map (·.name))
    (hc0 : st0.cache n = none)
    (hscan : get_mod_versions st0.fs st0.cache = .ok ⟨Ld, cD, oD⟩)
    (hiD : lookupMod i Ld = none)
    (hp0 : st0.packed i = none)
    (hext : read_mod_version mA = .ok (some (iJ, vA)))
    (hkey : toKey iJ = some i)
    (hcopy : env.copyFails n = none)
    (hunlink : env.unlinkErr n = false) :
    ∃ st1, init st0 = .ok st1 ∧
    ∃ st2 o2, install_pack env st1 [⟨n, true, .zip mA⟩] = .ok (st2, o2) ∧
      o2.installed = 1 ∧ st2.packed i = some 1 ∧
      st2.fs = st0.fs ++ [⟨n, true, .zip mA⟩] ∧
    ∃ st3, init st2 = .ok st3 ∧
    ∃ st4 o4, install_pack env st3 [⟨n, true, dB⟩] = .ok (st4, o4) ∧
      o4.installed = 0 ∧ o4.skipped = 1 ∧ st4.packed i = some 2 ∧ st4.fs = st2.fs ∧
    ∃ st5, init st4 = .ok st5 ∧
    ∃ st6 o6, uninstall_pack env st5 [⟨n, true, .zip mA⟩] = .ok (st6, o6) ∧
      o6.uninstalled = 0 ∧ o6.skipped = 1 ∧ st6.packed i = some 1 ∧ st6.fs = st4.fs ∧
    ∃ st7, init st6 = .ok st7 ∧
    ∃ st8 o8, uninstall_pack env st7 [⟨n, true, dB⟩] = .ok (st8, o8) ∧
      o8.uninstalled = 1 ∧ o8.skipped = 0 ∧ o8.failed = 0 ∧
      st8.packed i = none ∧ st8.fs = st0.fs := by
  have hscan' : scanAux st0.fs ⟨[], st0.cache, []⟩ = .ok ⟨Ld, cD, oD⟩ := hscan
  have hfr : fsHas n st0.fs = false := fsHas_false_of_not_mem hnfs
  have hcDn : cD n = none := (scanAux_cache_names hscan' hnfs).trans hc0
  set eA : Entry := ⟨n, true, .zip mA⟩ with heA
  set eB : Entry := ⟨n, true, dB⟩ with heB
  set cAB : Cache := fun x => if x = n then some (iJ, vA) else cD x with hcAB
  have hcabn : cAB n = some (iJ, vA) := by
    rw [hcAB]
    simp
  -- session 1: init and install A
  set st1 : St := { st0 with cache := cD, current := lookupModFn Ld } with hst1v
  have hi1 : init st0 = .ok st1 := init_ok hscan
  have hstepA : scanStep ⟨[], cD, []⟩ eA = .ok ⟨[(i, vA, eA)], cAB, [n]⟩ := by
    unfold scanStep
    rw [heA, hcAB]
    simp [hjar, hcDn, hext, hkey, dinsertMod]
  have hgmA : get_mod_versions [eA] st1.cache = .ok ⟨[(i, vA, eA)], cAB, [n]⟩ := by
    show scanAux [eA] ⟨[], cD, []⟩ = _
    rw [scanAux_cons_ok [] hstepA]
    rfl
  set acc0A : ILoop := ⟨{ st1 with cache := cAB }, 0, 0, 0, [.identified 1 false]⟩ with hacc0A
  have hcurA : acc0A.st.current i = none := hiD
  have hcopyA : env.copyFails eA.name = none := hcopy
  set accA : ILoop :=
    { acc0A with
      st := { acc0A.st with
        packed := fun x => if x = i then some 1 else acc0A.st.packed x
        fs := fsWrite ⟨n, true, .zip mA⟩ acc0A.st.fs }
      installed := 1
      events := acc0A.events ++ [.okInstall i vA] } with haccA
  have hloopA : installLoop env [(i, vA, eA)] acc0A = accA := by
    show installStep env acc0A (i, vA, eA) = accA
    rw [installStep_new_ok hcurA hcopyA]
  have hinstA : install_pack env st1 [eA] =
      .ok (accA.st, ⟨accA.installed, accA.skipped, accA.failed,
        accA.events ++ [.packInstalled accA.installed accA.skipped accA.failed]⟩) :=
    install_pack_eval_ok hgmA hloopA
  have hfs2 : accA.st.fs = st0.fs ++ [eA] := by
    show fsWrite ⟨n, true, FileData.zip mA⟩ st0.fs = st0.fs ++ [eA]
    exact fsWrite_fresh hfr
  -- session 2: init and install B
  have hXagree : ∀ e ∈ st0.fs, cAB e.name = cD e.name := by
    intro e he
    have hne : e.name ≠ n := fun hh => hnfs (hh ▸ List.mem_map_of_mem (·.name) he)
    rw [hcAB]
    simp [hne]
  obtain ⟨oX, hX⟩ := rescan_agree st0.fs hdnd [] st0.cache [] Ld cD oD hscan' cAB [] hXagree
  have hstepHitA : scanStep ⟨Ld, cAB, oX⟩ eA = .ok ⟨dinsertMod i vA eA Ld, cAB, oX⟩ := by
    unfold scanStep
    rw [heA]
    simp [hjar, hcabn, hkey]
  have hsplit : scanAux (st0.fs ++ [eA]) ⟨[], cAB, []⟩ =
      .ok ⟨dinsertMod i vA eA Ld, cAB, oX⟩ := by
    rw [scanAux_append, hX]
    show scanAux [eA] ⟨Ld, cAB, oX⟩ = _
    rw [scanAux_cons_ok [] hstepHitA]
    rfl
  have hgm2 : get_mod_versions accA.st.fs accA.st.cache =
      .ok ⟨dinsertMod i vA eA Ld, cAB, oX⟩ := by
    show scanAux accA.st.fs ⟨[], cAB, []⟩ = _
    rw [hfs2]
    exact hsplit
  set st3 : St :=
    { accA.st with cache := cAB, current := lookupModFn (dinsertMod i vA eA Ld) } with hst3v
  have hi3 : init accA.st = .ok st3 := init_ok hgm2
  have hcur3 : st3.current i = some (vA, eA) := lookupMod_dinsert_self i vA eA Ld
  have hp3 : st3.packed i = some 1 := by
    show (if i = i then some 1 else acc0A.st.packed i) = some 1
    rw [if_pos rfl]
  have hstepB : scanStep ⟨[], cAB, []⟩ eB = .ok ⟨[(i, vA, eB)], cAB, []⟩ := by
    unfold scanStep
    rw [heB]
    simp [hjar, hcabn, hkey, dinsertMod]
  have hgmB : get_mod_versions [eB] st3.cache = .ok ⟨[(i, vA, eB)], cAB, []⟩ := by
    show scanAux [eB] ⟨[], cAB, []⟩ = _
    rw [scanAux_cons_ok [] hstepB]
    rfl
  set acc0B : ILoop := ⟨{ st3 with cache := cAB }, 0, 0, 0, [.identified 1 false]⟩ with hacc0B
  have hcurB : acc0B.st.current i = some (vA, eA) := hcur3
  have hpB : acc0B.st.packed i = some 1 := hp3
  set accB : ILoop :=
    { acc0B with
      st := { acc0B.st with
        packed := fun x => if x = i then some (1 + 1) else acc0B.st.packed x }
      skipped := 1
      events := acc0B.events ++ [.skipInstall i vA true] } with haccB
  have hloopB : installLoop env [(i, vA, eB)] acc0B = accB := by
    show installStep env acc0B (i, vA, eB) = accB
    rw [installStep_skip_other hcurB hpB]
  have hinstB : install_pack env st3 [eB] =
      .ok (accB.st, ⟨accB.installed, accB.skipped, accB.failed,
        accB.events ++ [.packInstalled accB.installed accB.skipped accB.failed]⟩) :=
    install_pack_eval_ok hgmB hloopB
  have hgm3 : get_mod_versions accB.st.fs accB.st.cache =
      .ok ⟨dinsertMod i vA eA Ld, cAB, oX⟩ := hgm2
  set st5 : St :=
    { accB.st with cache := cAB, current := lookupModFn (dinsertMod i vA eA Ld) } with hst5v
  have hi5 : init accB.st = .ok st5 := init_ok hgm3
  have hstepHitA0 : scanStep ⟨[], cAB, []⟩ eA = .ok ⟨[(i, vA, eA)], cAB, []⟩ := by
    unfold scanStep
    rw [heA]
    simp [hjar, hcabn, hkey, dinsertMod]
  have hgmUA : get_mod_versions [eA] st5.cache = .ok ⟨[(i, vA, eA)], cAB, []⟩ := by
    show scanAux [eA] ⟨[], cAB, []⟩ = _
    rw [scanAux_cons_ok [] hstepHitA0]
    rfl
  set acc0UA : ULoop := ⟨{ st5 with cache := cAB }, 0, 0, 0, [.identified 1 true]⟩ with hacc0UA
  have hpUA : acc0UA.st.packed i = some (1 + 1) := by
    show (if i = i then some (1 + 1) else acc0B.st.packed i) = some (1 + 1)
    rw [if_pos rfl]
  have hgtUA : (1 + 1 : Int) - 1 > 0 := by norm_num
  set accUA : ULoop :=
    { acc0UA with
      st := { acc0UA.st with
        packed := fun x => if x = i then some (1 + 1 - 1) else acc0UA.st.packed x }
      skipped := 1
      events := acc0UA.events ++ [.skipUninstall i vA] } with haccUA
  have hloopUA : uninstallLoop env [(i, vA, eA)] acc0UA = .ok accUA := by
    rw [uninstallLoop_cons_ok [] (uninstallStep_skip hpUA hgtUA)]
    rfl
  have hunA : uninstall_pack env st5 [eA] =
      .ok (accUA.st, ⟨accUA.uninstalled, accUA.skipped, accUA.failed,
        accUA.events ++ [.packUninstalled accUA.uninstalled accUA.skipped accUA.failed]⟩) :=
    uninstall_pack_eval_ok hgmUA hloopUA
  have hgm4 : get_mod_versions accUA.st.fs accUA.st.cache =
      .ok ⟨dinsertMod i vA eA Ld, cAB, oX⟩ := hgm2
  set st7 : St :=
    { accUA.st with cache := cAB, current := lookupModFn (dinsertMod i vA eA Ld) } with hst7v
  have hi7 : init accUA.st = .ok st7 := init_ok hgm4
  have hgmUB : get_mod_versions [eB] st7.cache = .ok ⟨[(i, vA, eB)], cAB, []⟩ := by
    show scanAux [eB] ⟨[], cAB, []⟩ = _
    rw [scanAux_cons_ok [] hstepB]
    rfl
  set acc0UB : ULoop := ⟨{ st7 with cache := cAB }, 0, 0, 0, [.identified 1 true]⟩ with hacc0UB
  have hpUB : acc0UB.st.packed i = some (1 + 1 - 1) := by
    show (if i = i then some (1 + 1 - 1) else acc0UA.st.packed i) = some (1 + 1 - 1)
    rw [if_pos rfl]
  have hgtUB : ¬ ((1 + 1 - 1 : Int) - 1 > 0) := by norm_num
  have hunlB : env.unlinkErr eB.name = false := hunlink
  have hfsUB : fsHas eB.name acc0UB.st.fs = true := by
    show fsHas n (fsWrite ⟨n, true, FileData.zip mA⟩ st0.fs) = true
    rw [fsWrite_fresh hfr, fsHas_append, fsHas_false_of_not_mem hnfs]
    show (false || (decide (n = n) || false)) = true
    simp
  set accUB : ULoop :=
    { acc0UB with
      st := { acc0UB.st with
        current := fun x => if x = i then none else acc0UB.st.current x
        packed := fun x => if x = i then none else acc0UB.st.packed x
        fs := fsErase n acc0UB.st.fs }
      uninstalled := 1
      events := acc0UB.events ++ [.okUninstall i vA] } with haccUB
  have hloopUB : uninstallLoop env [(i, vA, eB)] acc0UB = .ok accUB := by
    rw [uninstallLoop_cons_ok [] (uninstallStep_del hpUB hgtUB hunlB hfsUB)]
    rfl
  have hunB : uninstall_pack env st7 [eB] =
      .ok (accUB.st, ⟨accUB.uninstalled, accUB.skipped, accUB.failed,
        accUB.events ++ [.packUninstalled accUB.uninstalled accUB.skipped accUB.failed]⟩) :=
    uninstall_pack_eval_ok hgmUB hloopUB
  refine ⟨st1, hi1, accA.st, _, hinstA, rfl, ?_, hfs2,
    st3, hi3, accB.st, _, hinstB, rfl, rfl, ?_, rfl,
    st5, hi5, accUA.st, _, hunA, rfl, rfl, ?_, rfl,
    st7, hi7, accUB.st, _, hunB, rfl, rfl, rfl, ?_, ?_⟩
  · show (if i = i then some 1 else acc0A.st.packed i) = some 1
    rw [if_pos rfl]
  · show (if i = i then some (1 + 1) else acc0B.st.packed i) = some 2
    rw [if_pos rfl]
    norm_num
  · show (if i = i then some (1 + 1 - 1) else acc0UA.st.packed i) = some 1
    rw [if_pos rfl]
    norm_num
  · show (if i = i then none else acc0UB.st.packed i) = none
    rw [if_pos rfl]
  · show fsErase n (fsWrite ⟨n, true, FileData.zip mA⟩ st0.fs) = st0.fs
    rw [fsWrite_fresh hfr]
    exact (fsErase_append_head (e := ⟨n, true, FileData.zip mA⟩) [] hfr).trans
      (List.append_nil st0.fs)

theorem c3_witness :
    ∃ st1, init emptySt = .ok st1 ∧
    ∃ st2 o2, install_pack envOk st1 [⟨"m.jar", true, .zip (.json (mObj "m" "1"))⟩] =
        .ok (st2, o2) ∧
      o2.installed = 1 ∧ st2.packed (.str "m") = some 1 ∧
      st2.fs = emptySt.fs ++ [⟨"m.jar", true, .zip (.json (mObj "m" "1"))⟩] ∧
    ∃ st3, init st2 = .ok st3 ∧
    ∃ st4 o4, install_pack envOk st3 [⟨"m.jar", true, .notZip⟩] = .ok (st4, o4) ∧
      o4.installed = 0 ∧ o4.skipped = 1 ∧ st4.packed (.str "m") = some 2 ∧ st4.fs = st2.fs ∧
    ∃ st5, init st4 = .ok st5 ∧
    ∃ st6 o6, uninstall_pack envOk st5 [⟨"m.jar", true, .zip (.json (mObj "m" "1"))⟩] =
        .ok (st6, o6) ∧
      o6.uninstalled = 0 ∧ o6.skipped = 1 ∧ st6.packed (.str "m") = some 1 ∧ st6.fs = st4.fs ∧
    ∃ st7, init st6 = .ok st7 ∧
    ∃ st8 o8, uninstall_pack envOk st7 [⟨"m.jar", true, .notZip⟩] = .ok (st8, o8) ∧
      o8.uninstalled = 1 ∧ o8.skipped = 0 ∧ o8.failed = 0 ∧
      st8.packed (.str "m") = none ∧ st8.fs = emptySt.fs :=
  c3_overlap_amended envOk emptySt (.str "m") (.str "m") (.str "1")
    (.json (mObj "m" "1")) .notZip "m.jar" [] emptyCache []
    (by decide) (by decide) (by decide) rfl rfl rfl rfl rfl rfl rfl rfl
